import Mathlib

/-!
Verification of the protocol-conversion proxy (Claude-style messages API to
OpenAI-style chat-completions API and back).

Strings of the JavaScript source are modelled as lists of characters
(`Str := List Char`); all inputs relevant to the claims are ASCII, where
JavaScript's UTF-16 `length` coincides with the character count.
JavaScript numbers occurring in the modelled data (`temperature`, `top_p`)
are modelled as integers.  `JSON.parse` (an external runtime facility) is
modelled as an abstract parameter wherever the code calls it; `JSON.stringify`
is modelled by an explicit renderer over a JSON value type, covering the
escape sequences that can arise from the modelled inputs.
-/

/-- Strings of the source program, as lists of characters. -/
abbrev Str := List Char

/-- Characters of a Lean string literal. -/
def strL (s : String) : Str := s.data

/-- The double-quote character. -/
def dquoteC : Char := Char.ofNat 34

/-- The backslash character. -/
def backslashC : Char := Char.ofNat 92

/-- The opening curly-brace character. -/
def lcurlyC : Char := Char.ofNat 123

/-- The closing curly-brace character. -/
def rcurlyC : Char := Char.ofNat 125

/-- The newline character. -/
def newlineC : Char := Char.ofNat 10

/-- `isPrefixOfB pat s` holds when `pat` is an initial segment of `s`
(model of `String.prototype.startsWith`). -/
def isPrefixOfB : Str → Str → Bool
  | [], _ => true
  | _ :: _, [] => false
  | a :: as, b :: bs => a == b && isPrefixOfB as bs

/-- `containsSub s pat` holds when `pat` occurs contiguously in `s`
(model of `String.prototype.includes`). -/
def containsSub (s pat : Str) : Bool :=
  isPrefixOfB pat s ||
    match s with
    | [] => false
    | _ :: t => containsSub t pat

/-- ASCII lower-casing of one character (model of the effect of
`String.prototype.toLowerCase` on the ASCII inputs of interest). -/
def lcChar (c : Char) : Char :=
  if 'A' ≤ c ∧ c ≤ 'Z' then Char.ofNat (c.toNat + 32) else c

/-- Lower-case a modelled string. -/
def toLowerL (s : Str) : Str := s.map lcChar

/-- Split a modelled string at every occurrence of a separator character
(model of `String.prototype.split` with a one-character separator). -/
def splitOnCharAux (sep : Char) : Str → Str → List Str
  | acc, [] => [acc.reverse]
  | acc, c :: t =>
    if c == sep then acc.reverse :: splitOnCharAux sep [] t
    else splitOnCharAux sep (c :: acc) t

/-- Split on a separator character. -/
def splitOnChar (sep : Char) (s : Str) : List Str := splitOnCharAux sep [] s

/-- JavaScript whitespace characters handled by the model of `trim`. -/
def isWsChar (c : Char) : Bool :=
  c == ' ' || c == Char.ofNat 9 || c == Char.ofNat 10 || c == Char.ofNat 13

/-- Remove leading whitespace. -/
def trimLeftL : Str → Str
  | [] => []
  | c :: t => if isWsChar c then trimLeftL t else c :: t

/-- Model of `String.prototype.trim`. -/
def trimL (s : Str) : Str := (trimLeftL (trimLeftL s.reverse).reverse)

/-- Join a list of modelled strings with a separator string
(model of `Array.prototype.join`). -/
def joinSep (sep : Str) : List Str → Str
  | [] => []
  | [x] => x
  | x :: rest => x ++ sep ++ joinSep sep rest

-- JSON values, with lists and fields as mutual inductives so that the
-- renderer below is structurally recursive (and hence evaluable by the
-- kernel).
mutual
/-- JSON values. -/
inductive Json where
  | null
  | bool (b : Bool)
  | num (n : Int)
  | str (s : Str)
  | arr (elems : JsonList)
  | obj (fields : JsonFields)

/-- Lists of JSON values. -/
inductive JsonList where
  | nil
  | cons (hd : Json) (tl : JsonList)

/-- Fields of a JSON object. -/
inductive JsonFields where
  | nil
  | cons (key : Str) (val : Json) (tl : JsonFields)
end

/-- Build a JSON element list from a Lean list. -/
def JsonList.ofList : List Json → JsonList
  | [] => .nil
  | j :: t => .cons j (JsonList.ofList t)

/-- Build JSON object fields from a Lean list. -/
def JsonFields.ofList : List (Str × Json) → JsonFields
  | [] => .nil
  | (k, v) :: t => .cons k v (JsonFields.ofList t)

/-- View JSON object fields as a Lean list. -/
def JsonFields.toList : JsonFields → List (Str × Json)
  | .nil => []
  | .cons k v t => (k, v) :: JsonFields.toList t

/-- Object constructor from a Lean list of fields. -/
def Json.mkObj (l : List (Str × Json)) : Json := .obj (JsonFields.ofList l)

/-- Array constructor from a Lean list of elements. -/
def Json.mkArr (l : List Json) : Json := .arr (JsonList.ofList l)

/-- JSON string escaping of one character, covering the escapes that the
modelled inputs can produce. -/
def escChar (c : Char) : Str :=
  if c = dquoteC then [backslashC, dquoteC]
  else if c = backslashC then [backslashC, backslashC]
  else if c = Char.ofNat 10 then [backslashC, 'n']
  else if c = Char.ofNat 13 then [backslashC, 'r']
  else if c = Char.ofNat 9 then [backslashC, 't']
  else [c]

/-- JSON string escaping of a modelled string. -/
def escStr : Str → Str
  | [] => []
  | c :: t => escChar c ++ escStr t

/-- Decimal digit character. -/
def digitChar (n : Nat) : Char := Char.ofNat (48 + n)

/-- Fuelled decimal rendering of a natural number. -/
def natDigitsAux : Nat → Nat → Str
  | 0, _ => []
  | fuel + 1, n =>
    if n < 10 then [digitChar n]
    else natDigitsAux fuel (n / 10) ++ [digitChar (n % 10)]

/-- Decimal rendering of a natural number. -/
def natDigits (n : Nat) : Str := natDigitsAux (n + 1) n

/-- Decimal rendering of an integer (model of JSON number output for the
integer-valued numbers in the model). -/
def intDigits : Int → Str
  | .ofNat n => natDigits n
  | .negSucc m => '-' :: natDigits (m + 1)

-- Model of `JSON.stringify` over the JSON value type.
mutual
/-- Render a JSON value (model of `JSON.stringify`). -/
def Json.render : Json → Str
  | .null => strL "null"
  | .bool true => strL "true"
  | .bool false => strL "false"
  | .num n => intDigits n
  | .str s => dquoteC :: escStr s ++ [dquoteC]
  | .arr es => '[' :: JsonList.render es ++ [']']
  | .obj fs => lcurlyC :: JsonFields.render fs ++ [rcurlyC]

/-- Render a JSON element list. -/
def JsonList.render : JsonList → Str
  | .nil => []
  | .cons e .nil => Json.render e
  | .cons e rest => Json.render e ++ ',' :: JsonList.render rest

/-- Render JSON object fields. -/
def JsonFields.render : JsonFields → Str
  | .nil => []
  | .cons k v .nil => dquoteC :: escStr k ++ dquoteC :: ':' :: Json.render v
  | .cons k v rest =>
    (dquoteC :: escStr k ++ dquoteC :: ':' :: Json.render v) ++ ',' :: JsonFields.render rest
end

example : (Json.mkObj [(strL "a", Json.num 1)]).render =
    lcurlyC :: strL "\x22a\x22:1" ++ [rcurlyC] := by decide

example : (Json.mkObj [(strL "role", Json.str (strL "user")),
    (strL "content", Json.str (strL "hi"))]).render.length = 30 := by decide

/-! ## Data model (src/models/claude, shapes used by the converters) -/

/-- A system-prompt block (`{type, text}`). -/
structure SysBlock where
  type_ : Str
  text : Str
deriving DecidableEq

/-- The `system` field of a source request: a plain string or a list of
blocks. -/
inductive SystemContent where
  | str (s : Str)
  | blocks (l : List SysBlock)
deriving DecidableEq

/-- One item of an array-shaped `tool_result` content. -/
inductive TRItem where
  | textItem (text : Str)
  | strItem (s : Str)
  | other (j : Json)

/-- The `content` payload of a `tool_result` block: `null`/`undefined`, a
string, an array of items, an object of shape `{type:"text", text}`, or any
other JSON value. -/
inductive TRC where
  | null
  | str (s : Str)
  | items (l : List TRItem)
  | textObj (text : Str)
  | other (j : Json)

/-- A source content block (`text`, `image`, `tool_use` or `tool_result`).
`text` carries an optional string because the source objects may omit or
empty the field (the converters test it for truthiness); `tool_use.input`
is optional for the same reason. -/
inductive CBlock where
  | text (text : Option Str)
  | image (media_type : Str) (data : Str)
  | toolUse (id : Str) (name : Str) (input : Option Json)
  | toolResult (tool_use_id : Str) (content : TRC)

/-- The `content` of a source message: absent (`null`/`undefined`), a plain
string, or a block array. -/
inductive MsgContent where
  | null
  | str (s : Str)
  | blocks (l : List CBlock)

/-- A source (Claude-shaped) message. -/
structure ClaudeMessage where
  role : Str
  content : MsgContent

/-- A tool specification of a source request. -/
structure ClaudeTool where
  name : Str
  description : Option Str
  input_schema : Json

/-- A source (Claude-shaped) messages request.  Optional JavaScript fields
are `Option`s; `stream` is optional (the code reads `request.stream || false`). -/
structure ClaudeMessagesRequest where
  model : Str
  max_tokens : Nat
  stream : Option Bool := none
  temperature : Option Int := none
  top_p : Option Int := none
  stop_sequences : Option (List Str) := none
  system : Option SystemContent := none
  tools : Option (List ClaudeTool) := none
  messages : List ClaudeMessage

/-- One part of an array-shaped destination message content. -/
inductive OAPart where
  | text (t : Str)
  | imageUrl (url : Str)
deriving DecidableEq

/-- The content of a destination (OpenAI-shaped) request message: the field
may be absent, explicitly `null`, a string, or an array of parts. -/
inductive OAContent where
  | absent
  | null
  | str (s : Str)
  | parts (l : List OAPart)
deriving DecidableEq

/-- A destination tool call entry (`{id, type:"function", function:{name,
arguments}}`); the `type` is always `"function"` at every construction site, so
it is not stored. -/
structure OAToolCall where
  id : Str
  name : Str
  arguments : Str
deriving DecidableEq

/-- A destination (OpenAI-shaped) request message.  `tool_calls = []` models
an absent `tool_calls` field (the code only ever sets it to a non-empty
array). -/
structure OAMessage where
  role : Str
  content : OAContent := .absent
  tool_calls : List OAToolCall := []
  tool_call_id : Option Str := none
deriving DecidableEq

/-- A translated destination tool specification. -/
structure OATool where
  name : Str
  description : Option Str
  parameters : Json

/-- A destination (OpenAI-shaped) chat-completions request. -/
structure OpenAIRequest where
  model : Str
  messages : List OAMessage
  max_tokens : Nat
  stream : Bool
  temperature : Option Int := none
  top_p : Option Int := none
  stop : Option (List Str) := none
  tools : Option (List OATool) := none

/-! ## Model Mapper (src/core/model-manager.ts, `ModelManager.getOpenAIModel`) -/

/-- The configured destination model identifiers. -/
structure ModelConfig where
  bigModel : Str
  middleModel : Str
  smallModel : Str

namespace ModelManager

/-- `ModelManager.getOpenAIModel`: substring-family resolution of a source
model name to a destination model identifier. -/
def getOpenAIModel (config : ModelConfig) (claudeModel : Str) : Str :=
  let model := toLowerL claudeModel
  if containsSub model (strL "haiku") then config.smallModel
  else if containsSub model (strL "opus") then config.bigModel
  else if containsSub model (strL "sonnet") then config.middleModel
  else config.bigModel

end ModelManager

/-- View a JSON element list as a Lean list. -/
def JsonList.toList : JsonList → List Json
  | .nil => []
  | .cons j t => j :: JsonList.toList t

/-- Truthiness of an optional string (JavaScript: absent and `""` are
falsy). -/
def truthyS : Option Str → Bool
  | some s => s ≠ []
  | none => false

/-! ## Shared converters (src/conversion/shared-converters.ts) -/

namespace SharedConverters

/-- Content size cap (`MAX_CONTENT_LENGTH`). -/
def MAX_CONTENT_LENGTH : Nat := 200000

/-- Tool-arguments size cap (`MAX_TOOL_ARGS_LENGTH`). -/
def MAX_TOOL_ARGS_LENGTH : Nat := 50000

/-- `truncateContent`: cap a string at `MAX_CONTENT_LENGTH`, appending a
marker when truncation happened. -/
def truncateContent (content : Str) : Str :=
  if content.length ≤ MAX_CONTENT_LENGTH then content
  else content.take MAX_CONTENT_LENGTH ++ strL "... [truncated]"

/-- The enumerable own fields of a JSON value, as produced by the object
spread `{...obj}` (object fields; array elements under their decimal index
keys; nothing for primitives). -/
def spreadFields : Json → List (Str × Json)
  | .obj fs => fs.toList
  | .arr es => (es.toList.enum.map fun ej => (natDigits ej.1, ej.2))
  | _ => []

/-- `safeJsonStringify`: stringify a value; above the cap, replace oversized
fields of an object by a marker, and fall back to `"\x7b\x7d"` when even that
does not fit (or the value is not an object). -/
def safeJsonStringify (obj : Json) (maxLength : Nat := MAX_TOOL_ARGS_LENGTH) : Str :=
  let str := obj.render
  if str.length > maxLength then
    match obj with
    | .obj _ | .arr _ =>
      let truncated := (spreadFields obj).map fun kv =>
        if kv.2.render.length > maxLength / 2 then (kv.1, Json.str (strL "[truncated]"))
        else kv
      let newStr := (Json.mkObj truncated).render
      if newStr.length > maxLength then strL "\x7b\x7d" else newStr
    | _ => strL "\x7b\x7d"
  else str

/-- `mapOpenAIFinishReason` (the shared-converters version, imported by both
response converters in use): total mapping from destination finish reasons to
source stop reasons. -/
def mapOpenAIFinishReason (finishReason : Str) : Str :=
  if finishReason = strL "stop" then strL "end_turn"
  else if finishReason = strL "length" then strL "max_tokens"
  else if finishReason = strL "tool_calls" ∨ finishReason = strL "function_call" then
    strL "tool_use"
  else if finishReason = strL "content_filter" then strL "stop_sequence"
  else strL "end_turn"

end SharedConverters

/-! ## Destination response shapes and source response shape -/

/-- The `function` part of a destination response tool call. -/
structure RespFunction where
  name : Option Str := none
  arguments : Option Str := none

/-- A destination response tool call. -/
structure RespToolCall where
  id : Option Str := none
  type_ : Str
  function : RespFunction

/-- The message of a destination response choice. -/
structure RespMessage where
  content : Option Str := none
  tool_calls : Option (List RespToolCall) := none

/-- A destination response choice. -/
structure RespChoice where
  message : RespMessage
  finish_reason : Str

/-- Destination usage numbers. -/
structure RespUsage where
  prompt_tokens : Option Nat := none
  completion_tokens : Option Nat := none

/-- A destination (OpenAI-shaped) non-streaming response. -/
structure OpenAIResponse where
  id : Str
  choices : List RespChoice
  usage : Option RespUsage := none

/-- A source response content block (`text` or `tool_use`). -/
inductive ClaudeBlock where
  | text (text : Str)
  | toolUse (id : Str) (name : Str) (input : Json)

/-- A source (Claude-shaped) response. -/
structure ClaudeResponse where
  id : Str
  type_ : Str
  role : Str
  content : List ClaudeBlock
  model : Str
  stop_reason : Str
  stop_sequence : Option Str
  input_tokens : Nat
  output_tokens : Nat

namespace SharedConverters

/-- `convertOpenAIToClaudeResponse` (shared-converters version).
`jsonParse` models `JSON.parse` (`none` = parse failure); `freshId` models
the generated fallback id.  The function is partial in the source (it reads
`choices[0]`); absence of a first choice yields `none`. -/
def convertOpenAIToClaudeResponse (jsonParse : Str → Option Json) (freshId : Str)
    (openaiResponse : OpenAIResponse) (originalRequest : ClaudeMessagesRequest) :
    Option ClaudeResponse :=
  match openaiResponse.choices.head? with
  | none => none
  | some choice =>
    let message := choice.message
    let textBlocks : List ClaudeBlock :=
      match message.content with
      | some t => [.text t]
      | none => []
    let toolCalls := message.tool_calls.getD []
    let toolBlocks : List ClaudeBlock := toolCalls.filterMap fun toolCall =>
      if toolCall.type_ = strL "function" then
        let functionData := toolCall.function
        let argSource : Str :=
          match functionData.arguments with
          | some a => if a ≠ [] then a else strL "\x7b\x7d"
          | none => strL "\x7b\x7d"
        let arguments_ : Json :=
          match jsonParse argSource with
          | some j => j
          | none => Json.mkObj [(strL "raw_arguments",
              Json.str (match functionData.arguments with
                        | some a => if a ≠ [] then a else []
                        | none => []))]
        some (.toolUse
          (match toolCall.id with
           | some i => if i ≠ [] then i else freshId
           | none => freshId)
          (match functionData.name with
           | some n => if n ≠ [] then n else []
           | none => [])
          arguments_)
      else none
    let contentBlocks := textBlocks ++ toolBlocks
    let contentBlocks := if contentBlocks.isEmpty then [ClaudeBlock.text []] else contentBlocks
    some {
      id := openaiResponse.id
      type_ := strL "message"
      role := strL "assistant"
      content := contentBlocks
      model := originalRequest.model
      stop_reason := mapOpenAIFinishReason choice.finish_reason
      stop_sequence := none
      input_tokens := (match openaiResponse.usage with
                       | some u => u.prompt_tokens.getD 0
                       | none => 0)
      output_tokens := (match openaiResponse.usage with
                        | some u => u.completion_tokens.getD 0
                        | none => 0) }

end SharedConverters

/-! ## Streaming state and events -/

/-- A tool-call fragment of a destination stream chunk
(`delta.tool_calls[k]`). -/
structure TcFunction where
  name : Option Str := none
  arguments : Option Str := none

/-- One entry of `delta.tool_calls`. -/
structure TcDelta where
  index : Option Nat := none
  id : Option Str := none
  function : Option TcFunction := none

/-- The per-tool-call accumulator record of the streaming converter. -/
structure ToolAcc where
  id : Option Str := none
  name : Option Str := none
  argsBuffer : Str := []
  jsonSent : Bool := false
  claudeIndex : Option Nat := none
  started : Bool := false
deriving DecidableEq

/-- The `currentToolCalls` object: insertion-ordered key list plus total
lookup (unseen keys map to the initial accumulator). -/
structure ToolMap where
  keys : List Nat := []
  find : Nat → ToolAcc := fun _ => {}

/-- A source stream event.  The generator emits each of these wrapped in an
SSE frame (`event: <name>\ndata: <json>\n\n`) whose payload is built by
`createStreamingEvents`; the claims are about the event sequence, which this
type captures. -/
inductive Ev where
  | messageStart
  | contentBlockStart
  | contentBlockDelta (text : Str)
  | toolUseStart (index : Nat) (id : Str) (name : Str)
  | toolUseDelta (index : Nat) (pjson : Str)
  | toolUseStop (index : Nat)
  | contentBlockStop
  | messageDelta (stopReason : Str) (outputTokens : Nat)
  | messageStop
  | errorEv (message : Str)
deriving DecidableEq

namespace SharedConverters

/-- First section of `processToolCallDelta`: record a truthy `tcDelta.id`
and a truthy `function.name` in the accumulator. -/
def applyIdName (tcDelta : TcDelta) (tc0 : ToolAcc) : ToolAcc :=
  let tc1 := match tcDelta.id with
    | some s => if s ≠ [] then { tc0 with id := some s } else tc0
    | none => tc0
  match tcDelta.function with
  | some f =>
    match f.name with
    | some n => if n ≠ [] then { tc1 with name := some n } else tc1
    | none => tc1
  | none => tc1

/-- Second section: once both id and name are present and the call has not
started, assign the next block index (`textBlockIndex + ++toolBlockCounter`)
and emit its `content_block_start`. -/
def startPhase (textBlockIndex toolBlockCounter : Nat) (tc : ToolAcc) :
    List Ev × ToolAcc × Nat :=
  if truthyS tc.id ∧ truthyS tc.name ∧ tc.started = false then
    let ctr1 := toolBlockCounter + 1
    let claudeIndex := textBlockIndex + ctr1
    ([Ev.toolUseStart claudeIndex (tc.id.getD []) (tc.name.getD [])],
      { tc with claudeIndex := some claudeIndex, started := true }, ctr1)
  else ([], tc, toolBlockCounter)

/-- Third section: append an arguments fragment to the buffer of a started
call; on the first successful parse of the whole buffer emit one
`input_json_delta` carrying the entire buffer and mark the JSON as sent. -/
def argsPhase (jsonOk : Str → Bool) (tcDelta : TcDelta) (tc : ToolAcc) :
    List Ev × ToolAcc :=
  match tcDelta.function with
  | some f =>
    match f.arguments with
    | some a =>
      if tc.started then
        let tcB := { tc with argsBuffer := tc.argsBuffer ++ a }
        if jsonOk tcB.argsBuffer then
          if tcB.jsonSent = false ∧ tcB.claudeIndex.isSome then
            ([Ev.toolUseDelta (tcB.claudeIndex.getD 0) tcB.argsBuffer],
              { tcB with jsonSent := true })
          else ([], tcB)
        else ([], tcB)
      else ([], tc)
    | none => ([], tc)
  | none => ([], tc)

/-- `processToolCallDelta`: route one tool-call fragment through the
per-index accumulator (`jsonOk` models success of `JSON.parse`). -/
def processToolCallDelta (jsonOk : Str → Bool) (tcDelta : TcDelta) (m : ToolMap)
    (textBlockIndex : Nat) (toolBlockCounter : Nat) : List Ev × ToolMap × Nat :=
  let tcIndex := tcDelta.index.getD 0
  let keys := if tcIndex ∈ m.keys then m.keys else m.keys ++ [tcIndex]
  let tc2 := applyIdName tcDelta (m.find tcIndex)
  let s := startPhase textBlockIndex toolBlockCounter tc2
  let a := argsPhase jsonOk tcDelta s.2.1
  (s.1 ++ a.1,
   { keys := keys, find := fun k => if k = tcIndex then a.2 else m.find k },
   s.2.2)

/-- Process a list of tool-call fragments in sequence, accumulating the
emitted events. -/
def processToolCallDeltas (jsonOk : Str → Bool) (textBlockIndex : Nat) :
    List TcDelta → ToolMap → Nat → List Ev × ToolMap × Nat
  | [], m, ctr => ([], m, ctr)
  | d :: rest, m, ctr =>
    let r1 := processToolCallDelta jsonOk d m textBlockIndex ctr
    let r2 := processToolCallDeltas jsonOk textBlockIndex rest r1.2.1 r1.2.2
    (r1.1 ++ r2.1, r2.2.1, r2.2.2)

end SharedConverters

/-- Insertion-ordered de-duplication with a seen-accumulator (model of
filling and iterating a JavaScript `Set`). -/
def setDedupAux (seen : List Str) : List Str → List Str
  | [] => []
  | x :: t => if seen.contains x then setDedupAux seen t
              else x :: setDedupAux (x :: seen) t

/-- Insertion-ordered de-duplication (a JavaScript `Set` iterates its
elements in first-insertion order). -/
def setDedup (l : List Str) : List Str := setDedupAux [] l

/-! ## Request converter with tool-call reconciliation
(src/conversion/request-converter.ts) -/

namespace ToolRequestConverter

/-- `formatToolResultContent`: best-effort string rendering of a
`tool_result` content payload; never fails. -/
def formatToolResultContent (content : TRC) : Str :=
  match content with
  | .null => strL "No content provided"
  | .str s => s
  | .items l =>
    let resultParts := l.map fun item =>
      match item with
      | .textItem t =>
        if t ≠ [] then t
        else (Json.mkObj [(strL "type", Json.str (strL "text")),
                          (strL "text", Json.str t)]).render
      | .strItem s => s
      | .other j => j.render
    trimL (joinSep [newlineC] resultParts)
  | .textObj t =>
    if t ≠ [] then t
    else (Json.mkObj [(strL "type", Json.str (strL "text")),
                      (strL "text", Json.str t)]).render
  | .other j => j.render

/-- `convertClaudeMessage`: convert one source message to a destination
message (text collapsing for assistant output, discrete parts for user
input, `tool_use` blocks to `tool_calls`). -/
def convertClaudeMessage (message : ClaudeMessage) : OAMessage :=
  match message.content with
  | .null =>
    { role := message.role
      content := if message.role = strL "assistant" then .null else .str [] }
  | .str s => { role := message.role, content := .str s }
  | .blocks blocks =>
    let content : List OAPart := blocks.filterMap fun block =>
      match block with
      | .text t =>
        if truthyS t ∧ message.role ≠ strL "assistant" then some (.text (t.getD []))
        else none
      | .image media_type data =>
        some (.imageUrl (strL "data:" ++ media_type ++ strL ";base64," ++ data))
      | _ => none
    let textParts : List Str := blocks.filterMap fun block =>
      match block with
      | .text t =>
        if truthyS t ∧ message.role = strL "assistant" then some (t.getD []) else none
      | _ => none
    let toolCalls : List OAToolCall := blocks.filterMap fun block =>
      match block with
      | .toolUse id name input =>
        if message.role = strL "assistant" then
          some { id := id, name := name,
                 arguments := (input.getD (Json.mkObj [])).render }
        else none
      | _ => none
    if message.role = strL "assistant" then
      { role := strL "assistant"
        content := match textParts with
          | [] => .null
          | l => .str (joinSep [] l)
        tool_calls := toolCalls }
    else
      match content with
      | [] => { role := message.role, content := .str [] }
      | [OAPart.text t] => { role := message.role, content := .str t }
      | l => { role := message.role, content := .parts l }

/-- The fixed placeholder tool message synthesized for a tool call id
without a caller-supplied result. -/
def dummyToolMessage (toolCallId : Str) : OAMessage :=
  { role := strL "tool"
    tool_call_id := some toolCallId
    content := .str (strL "Tool execution completed without explicit result.") }

/-- Extract the `tool_result` blocks of a content block list. -/
def toolResultsOf (blocks : List CBlock) : List (Str × TRC) :=
  blocks.filterMap fun block =>
    match block with
    | .toolResult tool_use_id content => some (tool_use_id, content)
    | _ => none

/-- The message-conversion loop of `convertClaudeToOpenAI`: after every
assistant message carrying `tool_calls`, append the tool results supplied by
the following user message and synthesize placeholder results for ids
without one (in all branches). -/
def convertLoop : List ClaudeMessage → List OAMessage
  | [] => []
  | message :: rest =>
    let openaiMessage := convertClaudeMessage message
    if message.role = strL "assistant" ∧ openaiMessage.tool_calls ≠ [] then
      let toolCallIds := setDedup (openaiMessage.tool_calls.map (·.id))
      match rest with
      | [] => openaiMessage :: (toolCallIds.map dummyToolMessage) ++ convertLoop []
      | nextMessage :: rest2 =>
        match nextMessage.content with
        | .blocks nextBlocks =>
          if nextMessage.role = strL "user" then
            match toolResultsOf nextBlocks with
            | [] =>
              openaiMessage :: (toolCallIds.map dummyToolMessage)
                ++ convertLoop (nextMessage :: rest2)
            | toolResults =>
              let toolMessages : List OAMessage := toolResults.map fun result =>
                { role := strL "tool"
                  tool_call_id := some result.1
                  content := .str (formatToolResultContent result.2) }
              let respondedToolIds := toolMessages.map fun tm => tm.tool_call_id.getD []
              let dummies := (toolCallIds.filter fun id =>
                !(respondedToolIds.contains id)).map dummyToolMessage
              openaiMessage :: toolMessages ++ dummies ++ convertLoop rest2
          else
            openaiMessage :: (toolCallIds.map dummyToolMessage)
              ++ convertLoop (nextMessage :: rest2)
        | _ =>
          openaiMessage :: (toolCallIds.map dummyToolMessage)
            ++ convertLoop (nextMessage :: rest2)
    else openaiMessage :: convertLoop rest

/-- Translate the optional request parameters and tools (shared shape of
both converters' request skeleton). -/
def baseRequest (config : ModelConfig) (request : ClaudeMessagesRequest) : OpenAIRequest :=
  { model := ModelManager.getOpenAIModel config request.model
    messages := []
    max_tokens := request.max_tokens
    stream := request.stream.getD false
    temperature := request.temperature
    top_p := request.top_p
    stop := match request.stop_sequences with
      | some l => if l ≠ [] then some l else none
      | none => none
    tools := match request.tools with
      | some [] => none
      | some ts => some (ts.map fun t =>
          { name := t.name, description := t.description, parameters := t.input_schema })
      | none => none }

/-- The system messages pushed by `convertClaudeToOpenAI` (string form, or
newline-joined text blocks; an empty result is not pushed). -/
def systemMessages (request : ClaudeMessagesRequest) : List OAMessage :=
  match request.system with
  | none => []
  | some (.str s) =>
    if s ≠ [] then [{ role := strL "system", content := .str s }] else []
  | some (.blocks bs) =>
    let systemContent :=
      joinSep [newlineC] ((bs.filter fun b => b.type_ = strL "text").map (·.text))
    if systemContent ≠ [] then
      [{ role := strL "system", content := .str systemContent }]
    else []

/-- `convertClaudeToOpenAI` (request-converter.ts): full request conversion
with tool call/result reconciliation. -/
def convertClaudeToOpenAI (config : ModelConfig) (request : ClaudeMessagesRequest) :
    OpenAIRequest :=
  let base := baseRequest config request
  { base with messages := systemMessages request ++ convertLoop request.messages }

end ToolRequestConverter

/-! ## Size-budget request converter (the `MAX_TOTAL_REQUEST_SIZE` variant of
`convertClaudeToOpenAI`) -/

namespace BudgetRequestConverter

/-- `MAX_TOTAL_REQUEST_SIZE`: the byte ceiling of the budget pass. -/
def MAX_TOTAL_REQUEST_SIZE : Nat := 300000

/-- JSON value of an array-shaped `tool_result` content item. -/
def trItemToJson : TRItem → Json
  | .textItem t => Json.mkObj [(strL "type", Json.str (strL "text")),
                               (strL "text", Json.str t)]
  | .strItem s => Json.str s
  | .other j => j

/-- JSON value of a non-string `tool_result` content payload (argument of
`safeJsonStringify`). -/
def trcToJson : TRC → Json
  | .null => Json.null
  | .str s => Json.str s
  | .items l => Json.mkArr (l.map trItemToJson)
  | .textObj t => Json.mkObj [(strL "type", Json.str (strL "text")),
                              (strL "text", Json.str t)]
  | .other j => j

/-- `convertMessages`: simplified per-message conversion collecting text,
tool calls and tool results of each message independently. -/
def convertMessages : List ClaudeMessage → List OAMessage
  | [] => []
  | message :: rest =>
    match message.content with
    | .str s =>
      { role := if message.role = strL "assistant" then strL "assistant" else strL "user"
        content := .str (SharedConverters.truncateContent s) } :: convertMessages rest
    | .null => convertMessages rest
    | .blocks blocks =>
      let textContents : List Str := blocks.filterMap fun b =>
        match b with
        | .text t => some (t.getD [])
        | _ => none
      let toolCalls : List OAToolCall := blocks.filterMap fun b =>
        match b with
        | .toolUse id name input =>
          some { id := id, name := name,
                 arguments := SharedConverters.safeJsonStringify (input.getD (Json.mkObj [])) }
        | _ => none
      let toolResults : List (Str × Str) := blocks.filterMap fun b =>
        match b with
        | .toolResult tool_use_id content =>
          let resultContent := match content with
            | .str s => s
            | c => SharedConverters.safeJsonStringify (trcToJson c)
          some (tool_use_id, SharedConverters.truncateContent resultContent)
        | _ => none
      let mainMsgs : List OAMessage :=
        if textContents ≠ [] ∨ toolCalls ≠ [] then
          [{ role := if message.role = strL "assistant" then strL "assistant" else strL "user"
             content :=
               if textContents ≠ [] then
                 .str (SharedConverters.truncateContent (joinSep [newlineC] textContents))
               else if toolCalls = [] then .str []
               else .absent
             tool_calls := toolCalls }]
        else []
      let toolMsgs : List OAMessage := toolResults.map fun toolResult =>
        { role := strL "tool"
          tool_call_id := some toolResult.1
          content := .str toolResult.2 }
      mainMsgs ++ toolMsgs ++ convertMessages rest

/-- JSON value of one content part of a destination message. -/
def oaPartToJson : OAPart → Json
  | .text t => Json.mkObj [(strL "type", Json.str (strL "text")),
                           (strL "text", Json.str t)]
  | .imageUrl url => Json.mkObj [(strL "type", Json.str (strL "image_url")),
      (strL "image_url", Json.mkObj [(strL "url", Json.str url)])]

/-- JSON value of a destination tool call entry. -/
def oaToolCallToJson (tc : OAToolCall) : Json :=
  Json.mkObj [(strL "id", Json.str tc.id),
              (strL "type", Json.str (strL "function")),
              (strL "function", Json.mkObj [(strL "name", Json.str tc.name),
                                            (strL "arguments", Json.str tc.arguments)])]

/-- JSON value of a destination message, as passed to `JSON.stringify` by
the budget loop (key order can differ between construction sites in the
source, which does not affect the serialized length). -/
def oaMessageToJson (m : OAMessage) : Json :=
  Json.mkObj ([(strL "role", Json.str m.role)]
    ++ (match m.content with
        | .absent => []
        | .null => [(strL "content", Json.null)]
        | .str s => [(strL "content", Json.str s)]
        | .parts l => [(strL "content", Json.mkArr (l.map oaPartToJson))])
    ++ (match m.tool_calls with
        | [] => []
        | tcs => [(strL "tool_calls", Json.mkArr (tcs.map oaToolCallToJson))])
    ++ (match m.tool_call_id with
        | some i => [(strL "tool_call_id", Json.str i)]
        | none => []))

/-- JSON value of a translated tool specification. -/
def oaToolToJson (t : OATool) : Json :=
  Json.mkObj [(strL "type", Json.str (strL "function")),
    (strL "function", Json.mkObj ([(strL "name", Json.str t.name)]
      ++ (match t.description with
          | some d => [(strL "description", Json.str d)]
          | none => [])
      ++ [(strL "parameters", t.parameters)]))]

/-- JSON value of `{...openaiRequest, messages: []}`: the request skeleton
whose serialized length seeds the budget loop. -/
def requestSkeletonJson (r : OpenAIRequest) : Json :=
  Json.mkObj ([(strL "model", Json.str r.model),
               (strL "messages", Json.mkArr []),
               (strL "max_tokens", Json.num r.max_tokens),
               (strL "stream", Json.bool r.stream)]
    ++ (match r.temperature with
        | some t => [(strL "temperature", Json.num t)]
        | none => [])
    ++ (match r.top_p with
        | some t => [(strL "top_p", Json.num t)]
        | none => [])
    ++ (match r.stop with
        | some l => [(strL "stop", Json.mkArr (l.map Json.str))]
        | none => [])
    ++ (match r.tools with
        | some ts => [(strL "tools", Json.mkArr (ts.map oaToolToJson))]
        | none => []))

/-- The incremental size check: keep adding converted messages while the
cumulative serialized size stays under `MAX_TOTAL_REQUEST_SIZE`, stopping at
the first message that would overflow. -/
def addMessagesLoop (currentSize : Nat) : List OAMessage → List OAMessage
  | [] => []
  | message :: rest =>
    let messageSize := (oaMessageToJson message).render.length
    if currentSize + messageSize > MAX_TOTAL_REQUEST_SIZE then []
    else message :: addMessagesLoop (currentSize + messageSize) rest

/-- The system messages pushed by this converter (size-truncated). -/
def systemMessages (request : ClaudeMessagesRequest) : List OAMessage :=
  match request.system with
  | none => []
  | some (.str s) =>
    if s ≠ [] then
      [{ role := strL "system", content := .str (SharedConverters.truncateContent s) }]
    else []
  | some (.blocks bs) =>
    let systemContent :=
      joinSep [newlineC] ((bs.filter fun b => b.type_ = strL "text").map (·.text))
    if systemContent ≠ [] then
      [{ role := strL "system",
         content := .str (SharedConverters.truncateContent systemContent) }]
    else []

/-- `convertClaudeToOpenAI` (size-budget variant): builds the request, pushes
the system message into `messages`, converts the conversation, seeds the
budget with the skeleton size, and finally assigns `messages :=
finalMessages` — overwriting the array that held the system message. -/
def convertClaudeToOpenAI (config : ModelConfig) (request : ClaudeMessagesRequest) :
    OpenAIRequest :=
  let base := ToolRequestConverter.baseRequest config request
  let withSystem := { base with messages := systemMessages request }
  let convertedMessages := convertMessages request.messages
  let currentSize := (requestSkeletonJson withSystem).render.length
  let finalMessages := addMessagesLoop currentSize convertedMessages
  { withSystem with messages := finalMessages }

end BudgetRequestConverter

/-! ## Streaming converter (src/conversion/response-converter.ts,
`convertOpenAIStreamingToClaudeWithCancellation`) -/

/-- The `delta` of a destination stream chunk choice. -/
structure StreamDelta where
  content : Option Str := none
  tool_calls : Option (List TcDelta) := none

/-- One choice of a destination stream chunk. -/
structure StreamChoice where
  delta : StreamDelta
  finish_reason : Option Str := none

/-- A decoded destination stream chunk. -/
structure StreamChunk where
  choices : List StreamChoice

namespace ResponseConverter

/-- The mutable state of the streaming loop. -/
structure StreamState where
  outputTokens : Nat := 0
  stopReason : Str := strL "end_turn"
  currentToolCalls : ToolMap := {}
  toolBlockCounter : Nat := 0

/-- The loop body shared verbatim by the two transport branches: handle the
text delta, the tool-call deltas, then the finish reason (the returned flag
reports that a truthy `finish_reason` was seen, triggering `break`). -/
def processChoiceBody (jsonOk : Str → Bool) (st : StreamState) (choice : StreamChoice) :
    List Ev × StreamState × Bool :=
  let textStep : List Ev × StreamState :=
    match choice.delta.content with
    | some c =>
      if c ≠ [] then
        ([Ev.contentBlockDelta c], { st with outputTokens := st.outputTokens + 1 })
      else ([], st)
    | none => ([], st)
  let st1 := textStep.2
  let toolStep : List Ev × StreamState :=
    match choice.delta.tool_calls with
    | some tcDeltas =>
      let r := SharedConverters.processToolCallDeltas jsonOk 0 tcDeltas
        st1.currentToolCalls st1.toolBlockCounter
      (r.1, { st1 with currentToolCalls := r.2.1, toolBlockCounter := r.2.2 })
    | none => ([], st1)
  let st2 := toolStep.2
  match choice.finish_reason with
  | some finishReason =>
    if finishReason ≠ [] then
      (textStep.1 ++ toolStep.1,
       { st2 with stopReason := SharedConverters.mapOpenAIFinishReason finishReason }, true)
    else (textStep.1 ++ toolStep.1, st2, false)
  | none => (textStep.1 ++ toolStep.1, st2, false)

/-- Ascending insertion of a key (helper for the numeric key order of
`Object.values`). -/
def insertAsc (n : Nat) : List Nat → List Nat
  | [] => [n]
  | m :: rest => if n ≤ m then n :: m :: rest else m :: insertAsc n rest

/-- Sort keys ascending (JavaScript enumerates integer-like object keys in
ascending numeric order). -/
def sortAsc : List Nat → List Nat
  | [] => []
  | n :: rest => insertAsc n (sortAsc rest)

/-- The events emitted after the consumption loop: stop of block 0, stops of
every started tool block, then `message_delta` and `message_stop`. -/
def trailingEvents (st : StreamState) : List Ev :=
  Ev.contentBlockStop
    :: ((sortAsc st.currentToolCalls.keys).filterMap fun k =>
          let toolData := st.currentToolCalls.find k
          if toolData.started ∧ toolData.claudeIndex.isSome then
            some (Ev.toolUseStop (toolData.claudeIndex.getD 0))
          else none)
    ++ [Ev.messageDelta st.stopReason st.outputTokens, Ev.messageStop]

/-- The `AsyncIterable` transport branch: one decoded chunk per iteration;
`break` on a truthy `finish_reason` leaves the whole loop, so trailing
chunks are not consumed. -/
def consumeIterable (jsonOk : Str → Bool) :
    List StreamChunk → StreamState → List Ev × StreamState
  | [], st => ([], st)
  | chunk :: rest, st =>
    match chunk.choices.head? with
    | none => consumeIterable jsonOk rest st
    | some choice =>
      let r := processChoiceBody jsonOk st choice
      if r.2.2 then (r.1, r.2.1)
      else
        let r2 := consumeIterable jsonOk rest r.2.1
        (r.1 ++ r2.1, r2.2)

/-- The `AsyncIterable` branch of
`convertOpenAIStreamingToClaudeWithCancellation`, as the produced event
sequence. -/
def convertStreamIterable (jsonOk : Str → Bool) (chunks : List StreamChunk) : List Ev :=
  let r := consumeIterable jsonOk chunks {}
  Ev.messageStart :: Ev.contentBlockStart :: (r.1 ++ trailingEvents r.2)

/-- The per-read line loop of the `ReadableStream` transport branch.
`decode` models `JSON.parse` of a `data:` payload (`none` = parse failure,
skipped by the catch).  A `[DONE]` sentinel or a truthy `finish_reason`
breaks out of this inner `for` loop only. -/
def processLines (jsonOk : Str → Bool) (decode : Str → Option StreamChunk) :
    List Str → StreamState → List Ev × StreamState
  | [], st => ([], st)
  | line :: rest, st =>
    if isPrefixOfB (strL "data:") line then
      let data := trimL (line.drop 5)
      if data = strL "[DONE]" then ([], st)
      else
        match decode data with
        | none => processLines jsonOk decode rest st
        | some jsonData =>
          match jsonData.choices.head? with
          | none => processLines jsonOk decode rest st
          | some choice =>
            let r := processChoiceBody jsonOk st choice
            if r.2.2 then (r.1, r.2.1)
            else
              let r2 := processLines jsonOk decode rest r.2.1
              (r.1 ++ r2.1, r2.2)
    else processLines jsonOk decode rest st

/-- The outer read loop of the `ReadableStream` branch: every read chunk is
split into lines and processed; the `while` loop keeps reading after an
inner `break`, so state and consumption continue with the next read. -/
def consumeReadable (jsonOk : Str → Bool) (decode : Str → Option StreamChunk) :
    List Str → StreamState → List Ev × StreamState
  | [], st => ([], st)
  | readChunk :: rest, st =>
    let lines := splitOnChar newlineC readChunk
    let r := processLines jsonOk decode lines st
    let r2 := consumeReadable jsonOk decode rest r.2
    (r.1 ++ r2.1, r2.2)

/-- The `ReadableStream` branch of
`convertOpenAIStreamingToClaudeWithCancellation`, as the produced event
sequence. -/
def convertStreamReadable (jsonOk : Str → Bool) (decode : Str → Option StreamChunk)
    (reads : List Str) : List Ev :=
  let r := consumeReadable jsonOk decode reads {}
  Ev.messageStart :: Ev.contentBlockStart :: (r.1 ++ trailingEvents r.2)

end ResponseConverter

/-! ## Shared utilities (src/core/shared-utils.ts) -/

namespace SharedUtils

/-- `OpenAIErrorClassifier.classifyError`: lower-case the message and return
a canned replacement on the first matching substring pattern, else the
original message unchanged. -/
def classifyError (errorMessage : Str) : Str :=
  let message := toLowerL errorMessage
  if containsSub message (strL "invalid api key") ||
      containsSub message (strL "unauthorized") then
    strL "Invalid API key provided. Please check your OpenAI API key."
  else if containsSub message (strL "quota exceeded") ||
      containsSub message (strL "rate limit") then
    strL "Rate limit or quota exceeded. Please try again later."
  else if containsSub message (strL "model not found") ||
      containsSub message (strL "model does not exist") then
    strL "The requested model is not available or does not exist."
  else if containsSub message (strL "context_length_exceeded") ||
      containsSub message (strL "maximum context length") then
    strL "Request too long. Please reduce the message length or max_tokens."
  else if containsSub message (strL "timeout") ||
      containsSub message (strL "timed out") then
    strL "Request timed out. Please try again."
  else errorMessage

/-- A token-count request body (a source request without `max_tokens`). -/
structure ClaudeTokenCountRequest where
  system : Option SystemContent := none
  messages : List ClaudeMessage

/-- Characters contributed by one system block (`if (block.text) totalChars
+= block.text.length`). -/
def sysBlockChars (block : SysBlock) : Nat :=
  if block.text ≠ [] then block.text.length else 0

/-- Characters contributed by one message content block (`if (block.text)
...`; only text blocks carry a `text` field). -/
def msgBlockChars : CBlock → Nat
  | .text t => if truthyS t then (t.getD []).length else 0
  | _ => 0

/-- Characters contributed by the `system` field (`if (request.system)`
skips a falsy — empty — string). -/
def sysChars : Option SystemContent → Nat
  | none => 0
  | some (.str s) => if s ≠ [] then s.length else 0
  | some (.blocks bs) => (bs.map sysBlockChars).sum

/-- Characters contributed by one message (`null` content is skipped). -/
def msgChars (msg : ClaudeMessage) : Nat :=
  match msg.content with
  | .null => 0
  | .str s => s.length
  | .blocks bs => (bs.map msgBlockChars).sum

/-- `TokenCounter.countTokens`: character count over system and message text
content, divided by 4, floored, with a minimum of 1. -/
def countTokens (request : ClaudeTokenCountRequest) : Nat :=
  let totalChars := sysChars request.system + (request.messages.map msgChars).sum
  max 1 (totalChars / 4)

end SharedUtils

/-! ## Messages endpoint token-limit handling (src/api/routes.ts /
src/worker.ts) -/

namespace Routes

/-- The error reported for an invalid request (HTTP status and error
type). -/
structure ApiError where
  status : Nat
  type_ : Str
deriving DecidableEq

/-- The max_tokens handling of the messages endpoint: reject a request whose
`max_tokens` exceeds the configured limit with a 400 `invalid_request_error`
before converting (and hence before any outbound call), and clamp the
converted request's `max_tokens` to the limit. -/
def handleMessagesTokenCheck (config : ModelConfig) (maxTokensLimit : Nat)
    (request : ClaudeMessagesRequest) : Except ApiError OpenAIRequest :=
  if request.max_tokens ≠ 0 ∧ request.max_tokens > maxTokensLimit then
    .error { status := 400, type_ := strL "invalid_request_error" }
  else
    let openaiRequest := ToolRequestConverter.convertClaudeToOpenAI config request
    .ok (if openaiRequest.max_tokens ≠ 0 ∧ openaiRequest.max_tokens > maxTokensLimit then
      { openaiRequest with max_tokens := maxTokensLimit }
    else openaiRequest)

end Routes

/-! ## Checker definitions and concrete instances used by the verification -/

/-- The maximal run of consecutive `tool`-role messages at the front of a
message list. -/
def toolRun (l : List OAMessage) : List OAMessage :=
  l.takeWhile fun m => m.role == strL "tool"

/-- `coveredOK out` holds when every assistant message of `out` carrying
`tool_calls` is immediately followed by a run of `tool`-role messages that
contains, for every emitted tool call id, a message with that
`tool_call_id`. -/
def coveredOK : List OAMessage → Bool
  | [] => true
  | m :: rest =>
    (!(m.role == strL "assistant" && !m.tool_calls.isEmpty) ||
      m.tool_calls.all fun tc => (toolRun rest).any fun t => t.tool_call_id == some tc.id)
    && coveredOK rest

/-- The indices of the `content_block_start` events for tool blocks, in
emission order. -/
def startIndices (evs : List Ev) : List Nat :=
  evs.filterMap fun e =>
    match e with
    | .toolUseStart i _ _ => some i
    | _ => none

/-- The number of `input_json_delta` events for block index `i`. -/
def deltaCount (evs : List Ev) (i : Nat) : Nat :=
  evs.countP fun e =>
    match e with
    | .toolUseDelta j _ => j == i
    | _ => false

/-- Text length of one content block, as the specification states it
(reference definition, following the spec for comparison with the
source-derived counter). -/
def specBlockChars : CBlock → Nat
  | .text t => (t.getD []).length
  | _ => 0

/-- System text length as the specification states it. -/
def specSysChars : Option SystemContent → Nat
  | none => 0
  | some (.str s) => s.length
  | some (.blocks bs) => (bs.map fun b => b.text.length).sum

/-- Message text length as the specification states it. -/
def specMsgChars (msg : ClaudeMessage) : Nat :=
  match msg.content with
  | .null => 0
  | .str s => s.length
  | .blocks bs => (bs.map specBlockChars).sum

/-- Total character count of a token-count request as the specification
states it (system text plus all message text content). -/
def specTotalCharacters (request : SharedUtils.ClaudeTokenCountRequest) : Nat :=
  specSysChars request.system + (request.messages.map specMsgChars).sum

/-- A long all-`a` user turn (oldest message of the budget scenario). -/
def bigA : Str := List.replicate 160000 'a'

/-- A long all-`b` assistant turn (most recent message of the budget
scenario). -/
def bigB : Str := List.replicate 160000 'b'

/-- A model configuration mapping every family to `"m"`. -/
def budgetConfig : ModelConfig :=
  { bigModel := strL "m", middleModel := strL "m", smallModel := strL "m" }

/-- A request whose two converted messages together overflow
`MAX_TOTAL_REQUEST_SIZE` while each fits alone, with a short system
prompt. -/
def budgetFailingRequest : ClaudeMessagesRequest :=
  { model := strL "claude"
    max_tokens := 100
    system := some (.str (strL "You are helpful."))
    messages := [
      { role := strL "user", content := .str bigA },
      { role := strL "assistant", content := .str bigB }] }

/-- Stream chunk carrying only a finish reason. -/
def finishChunk : StreamChunk :=
  { choices := [{ delta := {}, finish_reason := some (strL "stop") }] }

/-- Stream chunk carrying a text delta `"X"`. -/
def textChunk : StreamChunk :=
  { choices := [{ delta := { content := some (strL "X") } }] }

/-- SSE payload of `finishChunk`. -/
def c9json1 : Str :=
  strL "\x7b\x22choices\x22:[\x7b\x22delta\x22:\x7b\x7d,\x22finish_reason\x22:\x22stop\x22\x7d]\x7d"

/-- SSE payload of `textChunk`. -/
def c9json2 : Str :=
  strL "\x7b\x22choices\x22:[\x7b\x22delta\x22:\x7b\x22content\x22:\x22X\x22\x7d\x7d]\x7d"

/-- First read of the byte-stream transport: the finish-reason chunk in SSE
framing. -/
def c9read1 : Str := strL "data: " ++ c9json1 ++ [newlineC]

/-- Second read: the text-delta chunk in SSE framing. -/
def c9read2 : Str := strL "data: " ++ c9json2 ++ [newlineC]

/-- Concrete model of `JSON.parse` for the two payloads above. -/
def c9decode (s : Str) : Option StreamChunk :=
  if s = c9json1 then some finishChunk
  else if s = c9json2 then some textChunk
  else none

/-- Concrete model of `JSON.parse` success for the tool-argument buffer
`{"a":1}` (the only complete JSON among its prefixes). -/
def jsonOkC (s : Str) : Bool := s = strL "\x7b\x22a\x22:1\x7d"

/-- The tool-call fragments of the specification's streaming test: id and
name first, then the argument string split in two. -/
def witnessDeltas : List TcDelta :=
  [{ index := some 0, id := some (strL "t1"),
     function := some { name := some (strL "f") } },
   { index := some 0, function := some { arguments := some (strL "\x7b\x22a\x22:") } },
   { index := some 0, function := some { arguments := some (strL "1\x7d") } }]

/-- The invariant tying the streaming converter's emitted events to the
tool-call accumulator state: starts carry the consecutive block indices
`tbi+1 .. tbi+ctr`; un-started accumulators carry no block index; block
indices stay in range, are injective across accumulator entries, and each
one has exactly one `input_json_delta` when its JSON was sent and none
otherwise; every emitted `input_json_delta` parses and is a prefix of its
accumulator's buffer; every emitted start carries a non-empty id and
name. -/
def C3Inv (jsonOk : Str → Bool) (tbi : Nat) (evs : List Ev) (m : ToolMap) (ctr : Nat) :
    Prop :=
  (startIndices evs = List.range' (tbi + 1) ctr) ∧
  (∀ k, (m.find k).started = false →
    (m.find k).claudeIndex = none ∧ (m.find k).jsonSent = false) ∧
  (∀ k ci, (m.find k).claudeIndex = some ci → tbi < ci ∧ ci ≤ tbi + ctr) ∧
  (∀ k k' ci, (m.find k).claudeIndex = some ci → (m.find k').claudeIndex = some ci →
    k = k') ∧
  (∀ k ci, (m.find k).claudeIndex = some ci →
    deltaCount evs ci = if (m.find k).jsonSent then 1 else 0) ∧
  (∀ i, (∀ k, (m.find k).claudeIndex ≠ some i) → deltaCount evs i = 0) ∧
  (∀ i s, Ev.toolUseDelta i s ∈ evs → jsonOk s = true ∧
    ∃ k, (m.find k).claudeIndex = some i ∧ (m.find k).jsonSent = true ∧
      ∃ t, s ++ t = (m.find k).argsBuffer) ∧
  (∀ i id name, Ev.toolUseStart i id name ∈ evs → id ≠ [] ∧ name ≠ [])

/-- A destination response whose message has no content and no tool
calls. -/
def emptyChoice : RespChoice := { message := {}, finish_reason := strL "stop" }

/-- A destination response with a single empty-message choice. -/
def emptyResp : OpenAIResponse := { id := strL "r1", choices := [emptyChoice] }

/-- A minimal source request. -/
def minimalReq : ClaudeMessagesRequest :=
  { model := strL "claude", max_tokens := 1, messages := [] }

/-- The specification's reconciliation test: an assistant message with two
tool uses followed by a user message supplying only one matching
result. -/
def reconcileExampleRequest : ClaudeMessagesRequest :=
  { model := strL "claude"
    max_tokens := 1
    messages := [
      { role := strL "assistant"
        content := .blocks [
          .toolUse (strL "call_a") (strL "f") none,
          .toolUse (strL "call_b") (strL "g") none] },
      { role := strL "user"
        content := .blocks [.toolResult (strL "call_a") (.str (strL "ok"))] }] }

/-! ## C4: model mapper -/

/-- C4: the model mapper is total on strings; a name containing `"haiku"`
(any case) resolves to the small model, else one containing `"opus"` to the
big model, else one containing `"sonnet"` to the middle model, and anything
else to the big model (the default). -/
theorem modelMapper_family_resolution (config : ModelConfig) (s : Str) :
    (containsSub (toLowerL s) (strL "haiku") = true →
      ModelManager.getOpenAIModel config s = config.smallModel) ∧
    (containsSub (toLowerL s) (strL "haiku") = false →
      containsSub (toLowerL s) (strL "opus") = true →
      ModelManager.getOpenAIModel config s = config.bigModel) ∧
    (containsSub (toLowerL s) (strL "haiku") = false →
      containsSub (toLowerL s) (strL "opus") = false →
      containsSub (toLowerL s) (strL "sonnet") = true →
      ModelManager.getOpenAIModel config s = config.middleModel) ∧
    (containsSub (toLowerL s) (strL "haiku") = false →
      containsSub (toLowerL s) (strL "opus") = false →
      containsSub (toLowerL s) (strL "sonnet") = false →
      ModelManager.getOpenAIModel config s = config.bigModel) := by
  refine ⟨fun h1 => ?_, fun h1 h2 => ?_, fun h1 h2 h3 => ?_, fun h1 h2 h3 => ?_⟩ <;>
    unfold ModelManager.getOpenAIModel
  · simp [h1]
  · simp [h1, h2]
  · simp [h1, h2, h3]
  · simp [h1, h2, h3]

/-- C4 witness: concrete resolutions for each family and for an unknown
name. -/
theorem modelMapper_family_resolution_witness :
    ModelManager.getOpenAIModel ⟨strL "big", strL "mid", strL "small"⟩
        (strL "Claude-3-5-HAIKU") = strL "small" ∧
    ModelManager.getOpenAIModel ⟨strL "big", strL "mid", strL "small"⟩
        (strL "claude-opus-4") = strL "big" ∧
    ModelManager.getOpenAIModel ⟨strL "big", strL "mid", strL "small"⟩
        (strL "claude-Sonnet-4") = strL "mid" ∧
    ModelManager.getOpenAIModel ⟨strL "big", strL "mid", strL "small"⟩
        (strL "gpt-4") = strL "big" :=
  ⟨(modelMapper_family_resolution _ _).1 (by decide),
   (modelMapper_family_resolution _ _).2.1 (by decide) (by decide),
   (modelMapper_family_resolution _ _).2.2.1 (by decide) (by decide) (by decide),
   (modelMapper_family_resolution _ _).2.2.2 (by decide) (by decide) (by decide)⟩

/-! ## C5: finish-reason mapping -/

/-- C5: the finish-reason mapping is total: `stop` to `end_turn`, `length`
to `max_tokens`, `tool_calls` and `function_call` to `tool_use`,
`content_filter` to `stop_sequence`, and every other string to
`end_turn`. -/
theorem finishReason_mapping_total :
    SharedConverters.mapOpenAIFinishReason (strL "stop") = strL "end_turn" ∧
    SharedConverters.mapOpenAIFinishReason (strL "length") = strL "max_tokens" ∧
    SharedConverters.mapOpenAIFinishReason (strL "tool_calls") = strL "tool_use" ∧
    SharedConverters.mapOpenAIFinishReason (strL "function_call") = strL "tool_use" ∧
    SharedConverters.mapOpenAIFinishReason (strL "content_filter") = strL "stop_sequence" ∧
    (∀ s : Str, s ≠ strL "stop" → s ≠ strL "length" → s ≠ strL "tool_calls" →
      s ≠ strL "function_call" → s ≠ strL "content_filter" →
      SharedConverters.mapOpenAIFinishReason s = strL "end_turn") := by
  refine ⟨by decide, by decide, by decide, by decide, by decide, fun s h1 h2 h3 h4 h5 => ?_⟩
  unfold SharedConverters.mapOpenAIFinishReason
  simp [h1, h2, h3, h4, h5]

/-- C5 witness: an arbitrary unrecognized finish reason maps to
`end_turn`. -/
theorem finishReason_mapping_total_witness :
    SharedConverters.mapOpenAIFinishReason (strL "banana") = strL "end_turn" :=
  finishReason_mapping_total.2.2.2.2.2 (strL "banana")
    (by decide) (by decide) (by decide) (by decide) (by decide)

/-! ## C10: error classifier idempotence -/

/-- C10: the error classifier is idempotent — every canned replacement is a
fixed point and every unmatched message is returned unchanged. -/
theorem classifyError_idempotent (m : Str) :
    SharedUtils.classifyError (SharedUtils.classifyError m) =
      SharedUtils.classifyError m := by
  by_cases g1 : (containsSub (toLowerL m) (strL "invalid api key") ||
      containsSub (toLowerL m) (strL "unauthorized")) = true
  · have e : SharedUtils.classifyError m =
        strL "Invalid API key provided. Please check your OpenAI API key." := by
      unfold SharedUtils.classifyError; simp [g1]
    rw [e]; decide
  · by_cases g2 : (containsSub (toLowerL m) (strL "quota exceeded") ||
        containsSub (toLowerL m) (strL "rate limit")) = true
    · have e : SharedUtils.classifyError m =
          strL "Rate limit or quota exceeded. Please try again later." := by
        unfold SharedUtils.classifyError; simp [g1, g2]
      rw [e]; decide
    · by_cases g3 : (containsSub (toLowerL m) (strL "model not found") ||
          containsSub (toLowerL m) (strL "model does not exist")) = true
      · have e : SharedUtils.classifyError m =
            strL "The requested model is not available or does not exist." := by
          unfold SharedUtils.classifyError; simp [g1, g2, g3]
        rw [e]; decide
      · by_cases g4 : (containsSub (toLowerL m) (strL "context_length_exceeded") ||
            containsSub (toLowerL m) (strL "maximum context length")) = true
        · have e : SharedUtils.classifyError m =
              strL "Request too long. Please reduce the message length or max_tokens." := by
            unfold SharedUtils.classifyError; simp [g1, g2, g3, g4]
          rw [e]; decide
        · by_cases g5 : (containsSub (toLowerL m) (strL "timeout") ||
              containsSub (toLowerL m) (strL "timed out")) = true
          · have e : SharedUtils.classifyError m =
                strL "Request timed out. Please try again." := by
              unfold SharedUtils.classifyError; simp [g1, g2, g3, g4, g5]
            rw [e]; decide
          · have e : SharedUtils.classifyError m = m := by
              unfold SharedUtils.classifyError; simp [g1, g2, g3, g4, g5]
            rw [e]; exact e

/-! ## C7: max_tokens ceiling -/

/-- C7: a request whose `max_tokens` exceeds the configured limit is
rejected with a 400 `invalid_request_error` before conversion (and hence
before any outbound call); every request that passes has `max_tokens` at or
below the limit after the clamp. -/
theorem maxTokens_limit_enforced (config : ModelConfig) (maxTokensLimit : Nat)
    (request : ClaudeMessagesRequest) :
    (request.max_tokens > maxTokensLimit →
      Routes.handleMessagesTokenCheck config maxTokensLimit request =
        .error { status := 400, type_ := strL "invalid_request_error" }) ∧
    (∀ r, Routes.handleMessagesTokenCheck config maxTokensLimit request = .ok r →
      r.max_tokens ≤ maxTokensLimit) := by
  constructor
  · intro h
    have hne : request.max_tokens ≠ 0 := by omega
    unfold Routes.handleMessagesTokenCheck
    simp [hne, h]
  · intro r hr
    unfold Routes.handleMessagesTokenCheck at hr
    have hmt : (ToolRequestConverter.convertClaudeToOpenAI config request).max_tokens =
        request.max_tokens := rfl
    by_cases hc : request.max_tokens ≠ 0 ∧ request.max_tokens > maxTokensLimit
    · simp [hc] at hr
    · simp only [hc, if_false, if_neg hc, Except.ok.injEq] at hr
      by_cases hc2 : (ToolRequestConverter.convertClaudeToOpenAI config request).max_tokens ≠ 0 ∧
          (ToolRequestConverter.convertClaudeToOpenAI config request).max_tokens > maxTokensLimit
      · rw [if_pos hc2] at hr
        rw [← hr]
      · rw [if_neg hc2] at hr
        rw [← hr]
        rw [hmt] at hc2 ⊢
        omega

/-- C7 witness: with limit 5, a request asking for 10 tokens is rejected
with status 400, and a request asking for 3 passes with `max_tokens = 3`. -/
theorem maxTokens_limit_enforced_witness :
    Routes.handleMessagesTokenCheck budgetConfig 5
        { model := strL "claude", max_tokens := 10, messages := [] } =
      .error { status := 400, type_ := strL "invalid_request_error" } ∧
    ∀ r, Routes.handleMessagesTokenCheck budgetConfig 5
        { model := strL "claude", max_tokens := 3, messages := [] } = .ok r →
      r.max_tokens ≤ 5 :=
  ⟨(maxTokens_limit_enforced budgetConfig 5 _).1 (by decide),
   (maxTokens_limit_enforced budgetConfig 5 _).2⟩

/-! ## C8: token counter -/

/-- C8: `countTokens` returns `max 1 (totalCharacters / 4)` over all system
and message text content; the specification's two concrete examples
evaluate to 1 and 1000. -/
theorem tokenCounter_formula :
    (∀ r : SharedUtils.ClaudeTokenCountRequest,
      SharedUtils.countTokens r = max 1 (specTotalCharacters r / 4)) ∧
    SharedUtils.countTokens
        { system := some (.str (strL "ab"))
          messages := [{ role := strL "user", content := .str (strL "abcd") }] } = 1 ∧
    SharedUtils.countTokens
        { system := some (.str [])
          messages := [{ role := strL "user",
                         content := .str (List.replicate 4000 'x') }] } = 1000 := by
  have hblk : SharedUtils.msgBlockChars = specBlockChars := by
    funext b
    match b with
    | .text none => simp [SharedUtils.msgBlockChars, specBlockChars, truthyS]
    | .text (some t) =>
      cases t <;> simp [SharedUtils.msgBlockChars, specBlockChars, truthyS]
    | .image m d => rfl
    | .toolUse i n inp => rfl
    | .toolResult i c => rfl
  have hsysb : SharedUtils.sysBlockChars = fun (b : SysBlock) => b.text.length := by
    funext b
    by_cases hb : b.text = [] <;> simp [SharedUtils.sysBlockChars, hb]
  have hsys : SharedUtils.sysChars = specSysChars := by
    funext sys
    match sys with
    | none => rfl
    | some (.str s) =>
      cases s <;> simp [SharedUtils.sysChars, specSysChars]
    | some (.blocks bs) =>
      simp [SharedUtils.sysChars, specSysChars, hsysb]
  have hmsg : SharedUtils.msgChars = specMsgChars := by
    funext msg
    unfold SharedUtils.msgChars specMsgChars
    rw [hblk]
  refine ⟨fun r => ?_, by decide, ?_⟩
  · unfold SharedUtils.countTokens specTotalCharacters
    rw [hsys, hmsg]
  · unfold SharedUtils.countTokens
    have h1 : SharedUtils.msgChars
        { role := strL "user", content := .str (List.replicate 4000 'x') } = 4000 := by
      unfold SharedUtils.msgChars
      simp only [List.length_replicate]
    simp only [List.map_cons, List.map_nil, List.sum_cons, List.sum_nil, h1]
    rfl

/-! ## C6: non-streaming response always has at least one content block -/

/-- The final at-least-one-block guard of the response converter. -/
theorem ensureNonempty (l : List ClaudeBlock) :
    (if l.isEmpty then [ClaudeBlock.text []] else l) ≠ [] ∧
    (l = [] → (if l.isEmpty then [ClaudeBlock.text []] else l) = [ClaudeBlock.text []]) := by
  cases l <;> simp

/-- C6: the converted non-streaming response has at least one content block,
and when the destination message has no content and no tool calls, exactly
one empty text block. -/
theorem response_at_least_one_block (jsonParse : Str → Option Json) (freshId : Str)
    (resp : OpenAIResponse) (req : ClaudeMessagesRequest) (choice : RespChoice)
    (h : resp.choices.head? = some choice) :
    ∃ cr, SharedConverters.convertOpenAIToClaudeResponse jsonParse freshId resp req = some cr ∧
      cr.content ≠ [] ∧
      ((choice.message.content = none ∧ choice.message.tool_calls.getD [] = []) →
        cr.content = [ClaudeBlock.text []]) := by
  unfold SharedConverters.convertOpenAIToClaudeResponse
  rw [h]
  simp only
  refine ⟨_, rfl, ?_, ?_⟩
  · exact (ensureNonempty _).1
  · rintro ⟨hnone, hno⟩
    apply (ensureNonempty _).2
    rw [hnone, hno]
    simp

/-! ## C2: tool-call reconciliation -/

/-- Membership is preserved by `setDedupAux` for elements not yet seen. -/
theorem mem_setDedupAux (a : Str) (l : List Str) :
    ∀ seen, a ∈ l → a ∉ seen → a ∈ setDedupAux seen l := by
  induction l with
  | nil => intro seen h _; cases h
  | cons x t ih =>
    intro seen hmem hseen
    unfold setDedupAux
    by_cases hc : seen.contains x = true
    · rw [if_pos hc]
      rcases List.mem_cons.mp hmem with rfl | hmt
      · exact absurd (List.mem_of_elem_eq_true hc) hseen
      · exact ih seen hmt hseen
    · rw [if_neg hc]
      rcases List.mem_cons.mp hmem with rfl | hmt
      · exact List.mem_cons_self _ _
      · by_cases hax : a = x
        · subst hax; exact List.mem_cons_self _ _
        · refine List.mem_cons_of_mem _ (ih (x :: seen) hmt ?_)
          intro hmm
          rcases List.mem_cons.mp hmm with rfl | h2
          · exact hax rfl
          · exact hseen h2

/-- Deduplication preserves membership. -/
theorem mem_setDedup (a : Str) (l : List Str) (h : a ∈ l) : a ∈ setDedup l :=
  mem_setDedupAux a l [] h (List.not_mem_nil a)

/-- The message converter preserves the role. -/
theorem convertClaudeMessage_role (m : ClaudeMessage) :
    (ToolRequestConverter.convertClaudeMessage m).role = m.role := by
  rcases m with ⟨role, content⟩
  unfold ToolRequestConverter.convertClaudeMessage
  match content with
  | .null => simp
  | .str s => simp
  | .blocks bs =>
    simp only
    by_cases hr : role = strL "assistant"
    · simp [hr]
    · simp only [if_neg hr]
      split <;> rfl

/-- A message that fails the assistant-with-tool-calls guard passes through
the coverage checker. -/
theorem coveredOK_cons_skip (m : OAMessage) (l : List OAMessage)
    (h : (m.role == strL "assistant" && !m.tool_calls.isEmpty) = false) :
    coveredOK (m :: l) = coveredOK l := by
  have e : coveredOK (m :: l) =
      ((!(m.role == strL "assistant" && !m.tool_calls.isEmpty) ||
        m.tool_calls.all fun tc => (toolRun l).any fun t => t.tool_call_id == some tc.id)
      && coveredOK l) := rfl
  rw [e, h]
  simp

/-- `toolRun` absorbs a leading run of tool messages. -/
theorem toolRun_append_tools (ts l : List OAMessage)
    (h : ∀ t ∈ ts, t.role = strL "tool") :
    toolRun (ts ++ l) = ts ++ toolRun l := by
  induction ts with
  | nil => rfl
  | cons t ts ih =>
    have ht := h t (List.mem_cons_self _ _)
    unfold toolRun
    simp only [List.cons_append, List.takeWhile_cons]
    rw [show (t.role == strL "tool") = true from by simp [ht]]
    simp only [if_true, List.cons.injEq, true_and]
    exact ih (fun x hx => h x (List.mem_cons_of_mem _ hx))

/-- The coverage checker skips a leading run of tool messages. -/
theorem coveredOK_append_tools (ts l : List OAMessage)
    (h : ∀ t ∈ ts, t.role = strL "tool" ∧ t.tool_calls = []) :
    coveredOK (ts ++ l) = coveredOK l := by
  induction ts with
  | nil => rfl
  | cons t ts ih =>
    obtain ⟨hrole, htc⟩ := h t (List.mem_cons_self _ _)
    have hskip : (t.role == strL "assistant" && !t.tool_calls.isEmpty) = false := by
      rw [hrole, htc]; decide
    rw [List.cons_append, coveredOK_cons_skip _ _ hskip]
    exact ih (fun x hx => h x (List.mem_cons_of_mem _ hx))

/-- An assistant message whose tool-call ids are all matched inside an
immediately following run of tool messages passes the checker. -/
theorem coveredOK_assistant_block (om : OAMessage) (ts tail : List OAMessage)
    (hts : ∀ t ∈ ts, t.role = strL "tool" ∧ t.tool_calls = [])
    (hcov : ∀ tc ∈ om.tool_calls, ∃ t ∈ ts, t.tool_call_id = some tc.id)
    (htail : coveredOK tail = true) :
    coveredOK (om :: ts ++ tail) = true := by
  have hall : (om.tool_calls.all fun tc =>
      (toolRun (ts ++ tail)).any fun t => t.tool_call_id == some tc.id) = true := by
    rw [List.all_eq_true]
    intro tc htc
    obtain ⟨t, htmem, hid⟩ := hcov tc htc
    rw [List.any_eq_true]
    refine ⟨t, ?_, ?_⟩
    · rw [toolRun_append_tools ts tail (fun x hx => (hts x hx).1)]
      exact List.mem_append_left _ htmem
    · simp [hid]
  have e : coveredOK (om :: ts ++ tail) =
      ((!(om.role == strL "assistant" && !om.tool_calls.isEmpty) ||
        om.tool_calls.all fun tc =>
          (toolRun (ts ++ tail)).any fun t => t.tool_call_id == some tc.id)
      && coveredOK (ts ++ tail)) := rfl
  rw [e, hall, coveredOK_append_tools ts tail hts, htail]
  simp

/-- Synthesized placeholder messages are tool-role messages without tool
calls. -/
theorem dummy_fields (ids : List Str) :
    ∀ t ∈ ids.map ToolRequestConverter.dummyToolMessage,
      t.role = strL "tool" ∧ t.tool_calls = [] := by
  intro t ht
  obtain ⟨i, _, rfl⟩ := List.mem_map.mp ht
  exact ⟨rfl, rfl⟩

/-- Every tool-call id is matched inside the run of placeholder messages
synthesized for the de-duplicated id list. -/
theorem dummy_cov (om : OAMessage) :
    ∀ tc ∈ om.tool_calls,
      ∃ t ∈ (setDedup (om.tool_calls.map (·.id))).map
          ToolRequestConverter.dummyToolMessage,
        t.tool_call_id = some tc.id := by
  intro tc htc
  refine ⟨ToolRequestConverter.dummyToolMessage tc.id, ?_, rfl⟩
  exact List.mem_map.mpr ⟨tc.id,
    mem_setDedup _ _ (List.mem_map.mpr ⟨tc, htc, rfl⟩), rfl⟩

/-- The all-placeholder reconciliation block passes the checker. -/
theorem coveredOK_dummy_block (om : OAMessage) (tail : List OAMessage)
    (htail : coveredOK tail = true) :
    coveredOK (om :: (setDedup (om.tool_calls.map (·.id))).map
        ToolRequestConverter.dummyToolMessage ++ tail) = true :=
  coveredOK_assistant_block om _ tail (dummy_fields _) (dummy_cov om) htail

/-- In the results branch of the reconciliation pass, every tool-call id is
matched either by a converted result message or by a synthesized
placeholder. -/
theorem results_cov (om : OAMessage) (toolResults : List (Str × TRC)) :
    ∀ tc ∈ om.tool_calls,
      ∃ t ∈ (toolResults.map fun result =>
          ({ role := strL "tool",
             content := OAContent.str (ToolRequestConverter.formatToolResultContent result.2),
             tool_calls := [], tool_call_id := some result.1 } : OAMessage)) ++
          List.map ToolRequestConverter.dummyToolMessage
            (List.filter (fun id => !((toolResults.map fun result =>
                ({ role := strL "tool",
                   content := OAContent.str (ToolRequestConverter.formatToolResultContent result.2),
                   tool_calls := [], tool_call_id := some result.1 } : OAMessage)).map
                  fun tm => tm.tool_call_id.getD []).contains id)
              (setDedup (om.tool_calls.map (·.id)))),
        t.tool_call_id = some tc.id := by
  intro tc htc
  by_cases hresp : ((toolResults.map fun result =>
      ({ role := strL "tool",
         content := OAContent.str (ToolRequestConverter.formatToolResultContent result.2),
         tool_calls := [], tool_call_id := some result.1 } : OAMessage)).map
        fun tm => tm.tool_call_id.getD []).contains tc.id = true
  · have hmem := List.mem_of_elem_eq_true hresp
    obtain ⟨tm, htm, hgd⟩ := List.mem_map.mp hmem
    obtain ⟨res, _, rfl⟩ := List.mem_map.mp htm
    refine ⟨_, List.mem_append_left _ htm, ?_⟩
    simpa using hgd
  · refine ⟨ToolRequestConverter.dummyToolMessage tc.id,
      List.mem_append_right _ ?_, rfl⟩
    refine List.mem_map.mpr ⟨tc.id, ?_, rfl⟩
    refine List.mem_filter.mpr ⟨mem_setDedup _ _
      (List.mem_map.mpr ⟨tc, htc, rfl⟩), ?_⟩
    have hfalse : ((toolResults.map fun result =>
        ({ role := strL "tool",
           content := OAContent.str (ToolRequestConverter.formatToolResultContent result.2),
           tool_calls := [], tool_call_id := some result.1 } : OAMessage)).map
          fun tm => tm.tool_call_id.getD []).contains tc.id = false := by
      cases hB : ((toolResults.map fun result =>
          ({ role := strL "tool",
             content := OAContent.str (ToolRequestConverter.formatToolResultContent result.2),
             tool_calls := [], tool_call_id := some result.1 } : OAMessage)).map
            fun tm => tm.tool_call_id.getD []).contains tc.id
      · rfl
      · exact absurd hB hresp
    rw [hfalse]
    rfl

theorem convertLoop_covered (msgs : List ClaudeMessage) :
    coveredOK (ToolRequestConverter.convertLoop msgs) = true := by
  induction msgs using ToolRequestConverter.convertLoop.induct with
  | case1 => rfl
  | case2 message om h ih =>
    rw [ToolRequestConverter.convertLoop.eq_2]
    simp only [if_pos h]
    exact coveredOK_dummy_block _ _ ih
  | case3 message om h next rest2 nextBlocks hblocks huser htr ih =>
    rw [ToolRequestConverter.convertLoop.eq_2]
    simp only [if_pos h, hblocks, if_pos huser, htr]
    exact coveredOK_dummy_block _ _ ih
  | case4 message om h next rest2 nextBlocks hblocks huser hne ih =>
    rw [ToolRequestConverter.convertLoop.eq_2]
    simp only [if_pos h, hblocks, if_pos huser]
    cases htr : ToolRequestConverter.toolResultsOf nextBlocks with
    | nil => exact absurd htr hne
    | cons r rs =>
      apply coveredOK_assistant_block _ _ _ ?_ ?_ ih
      · intro t ht
        rcases List.mem_append.mp ht with hm | hm
        · obtain ⟨x, _, rfl⟩ := List.mem_map.mp hm
          exact ⟨rfl, rfl⟩
        · obtain ⟨x, _, rfl⟩ := List.mem_map.mp hm
          exact ⟨rfl, rfl⟩
      · exact results_cov _ (r :: rs)
  | case5 message om h next rest2 nextBlocks hblocks huser ih =>
    rw [ToolRequestConverter.convertLoop.eq_2]
    simp only [if_pos h, hblocks, if_neg huser]
    exact coveredOK_dummy_block _ _ ih
  | case6 message om h next rest2 hnb ih =>
    rw [ToolRequestConverter.convertLoop.eq_2]
    simp only [if_pos h]
    rcases hc : next.content with _ | hstr | hblocks
    · exact coveredOK_dummy_block _ _ ih
    · exact coveredOK_dummy_block _ _ ih
    · exact absurd hc (hnb _)
  | case7 message rest2 om h ih =>
    have hstep : ToolRequestConverter.convertLoop (message :: rest2) =
        ToolRequestConverter.convertClaudeMessage message ::
          ToolRequestConverter.convertLoop rest2 := by
      rw [ToolRequestConverter.convertLoop.eq_2, if_neg h]
    rw [hstep]
    have hskip : ((ToolRequestConverter.convertClaudeMessage message).role ==
        strL "assistant" &&
        !(ToolRequestConverter.convertClaudeMessage message).tool_calls.isEmpty) = false := by
      rcases not_and_or.mp h with hr | htc
      · have hb : ((ToolRequestConverter.convertClaudeMessage message).role ==
            strL "assistant") = false := by
          rw [convertClaudeMessage_role message]
          exact beq_eq_false_iff_ne.mpr hr
        simp [hb]
      · have hb : (ToolRequestConverter.convertClaudeMessage message).tool_calls = [] := by
          by_contra hne
          exact htc hne
        simp [hb]
    rw [coveredOK_cons_skip _ _ hskip]
    exact ih

/-- Messages that fail the assistant-with-tool-calls guard are transparent
to the checker. -/
theorem coveredOK_append_skips (ts l : List OAMessage)
    (h : ∀ t ∈ ts, (t.role == strL "assistant" && !t.tool_calls.isEmpty) = false) :
    coveredOK (ts ++ l) = coveredOK l := by
  induction ts with
  | nil => rfl
  | cons t ts ih =>
    rw [List.cons_append, coveredOK_cons_skip _ _ (h t (List.mem_cons_self _ _))]
    exact ih (fun x hx => h x (List.mem_cons_of_mem _ hx))

/-- The system messages pushed by the converter carry the `system` role and
no tool calls. -/
theorem systemMessages_shape (request : ClaudeMessagesRequest) :
    ∀ m ∈ ToolRequestConverter.systemMessages request,
      m.role = strL "system" ∧ m.tool_calls = [] := by
  intro m hm
  unfold ToolRequestConverter.systemMessages at hm
  rcases hs : request.system with _ | sc
  · rw [hs] at hm
    cases hm
  · rcases sc with s | bs
    · rw [hs] at hm
      simp only at hm
      by_cases hne : s ≠ []
      · rw [if_pos hne] at hm
        obtain rfl := List.mem_singleton.mp hm
        exact ⟨rfl, rfl⟩
      · rw [if_neg hne] at hm
        cases hm
    · rw [hs] at hm
      simp only at hm
      by_cases hne : joinSep [newlineC]
          ((bs.filter fun b => b.type_ = strL "text").map (·.text)) ≠ []
      · rw [if_pos hne] at hm
        obtain rfl := List.mem_singleton.mp hm
        exact ⟨rfl, rfl⟩
      · rw [if_neg hne] at hm
        cases hm

/-- C2: every tool-call id emitted into an assistant message's `tool_calls`
is matched by a `tool`-role message with that `tool_call_id` in the
immediately following run of tool messages, for every request; and on the
specification's example (two tool uses, one supplied result) the converter
emits the real result message plus a placeholder with the fixed text. -/
theorem toolCalls_reconciled :
    (∀ (config : ModelConfig) (request : ClaudeMessagesRequest),
      coveredOK (ToolRequestConverter.convertClaudeToOpenAI config request).messages = true) ∧
    (ToolRequestConverter.convertClaudeToOpenAI budgetConfig reconcileExampleRequest).messages =
      [{ role := strL "assistant", content := .null,
         tool_calls := [
           { id := strL "call_a", name := strL "f", arguments := strL "\x7b\x7d" },
           { id := strL "call_b", name := strL "g", arguments := strL "\x7b\x7d" }] },
       { role := strL "tool", content := .str (strL "ok"),
         tool_call_id := some (strL "call_a") },
       { role := strL "tool",
         content := .str (strL "Tool execution completed without explicit result."),
         tool_call_id := some (strL "call_b") }] := by
  constructor
  · intro config request
    show coveredOK (ToolRequestConverter.systemMessages request ++
        ToolRequestConverter.convertLoop request.messages) = true
    rw [coveredOK_append_skips _ _ ?_]
    · exact convertLoop_covered request.messages
    · intro t ht
      obtain ⟨hrole, htc⟩ := systemMessages_shape request t ht
      rw [hrole, htc]
      decide
  · decide

/-! ## C3: streaming tool-call block protocol -/

/-- A truthy optional string has a non-empty `getD`. -/
theorem truthyS_getD (o : Option Str) (h : truthyS o = true) : o.getD [] ≠ [] := by
  cases o with
  | none => cases h
  | some s => simpa [truthyS] using h

/-- `applyIdName` touches only the `id` and `name` fields. -/
theorem applyIdName_fields (d : TcDelta) (tc : ToolAcc) :
    (SharedConverters.applyIdName d tc).started = tc.started ∧
    (SharedConverters.applyIdName d tc).claudeIndex = tc.claudeIndex ∧
    (SharedConverters.applyIdName d tc).jsonSent = tc.jsonSent ∧
    (SharedConverters.applyIdName d tc).argsBuffer = tc.argsBuffer := by
  unfold SharedConverters.applyIdName
  rcases d with ⟨i, id, fn⟩
  rcases id with _ | s <;> rcases fn with _ | ⟨fname, fargs⟩ <;>
    try rcases fname with _ | n
  all_goals refine ⟨?_, ?_, ?_, ?_⟩ <;> (repeat' split) <;> rfl

/-- `startPhase` fires exactly when id and name are truthy on an un-started
accumulator. -/
theorem startPhase_pos (tbi ctr : Nat) (tc : ToolAcc)
    (h : truthyS tc.id = true ∧ truthyS tc.name = true ∧ tc.started = false) :
    SharedConverters.startPhase tbi ctr tc =
      ([Ev.toolUseStart (tbi + (ctr + 1)) (tc.id.getD []) (tc.name.getD [])],
        { tc with claudeIndex := some (tbi + (ctr + 1)), started := true }, ctr + 1) := by
  unfold SharedConverters.startPhase
  rw [if_pos h]

/-- `startPhase` is the identity otherwise. -/
theorem startPhase_neg (tbi ctr : Nat) (tc : ToolAcc)
    (h : ¬(truthyS tc.id = true ∧ truthyS tc.name = true ∧ tc.started = false)) :
    SharedConverters.startPhase tbi ctr tc = ([], tc, ctr) := by
  unfold SharedConverters.startPhase
  rw [if_neg h]

/-- `argsPhase` either emits nothing and at most extends the buffer, or
emits one `input_json_delta` carrying the whole extended buffer on a
first successful parse. -/
theorem argsPhase_cases (jsonOk : Str → Bool) (d : TcDelta) (tc : ToolAcc) :
    (∃ t : Str, SharedConverters.argsPhase jsonOk d tc =
        ([], { tc with argsBuffer := tc.argsBuffer ++ t })) ∨
    (∃ ci buf, tc.claudeIndex = some ci ∧ tc.jsonSent = false ∧ jsonOk buf = true ∧
      (∃ t, tc.argsBuffer ++ t = buf) ∧
      SharedConverters.argsPhase jsonOk d tc =
        ([Ev.toolUseDelta ci buf], { tc with argsBuffer := buf, jsonSent := true })) := by
  unfold SharedConverters.argsPhase
  rcases d with ⟨i, id, fn⟩
  rcases fn with _ | ⟨fname, fargs⟩
  · exact Or.inl ⟨[], by simp⟩
  · rcases fargs with _ | a
    · exact Or.inl ⟨[], by simp⟩
    · simp only
      by_cases hst : tc.started = true
      · rw [if_pos hst]
        by_cases hok : jsonOk (tc.argsBuffer ++ a) = true
        · rw [if_pos hok]
          by_cases hguard : tc.jsonSent = false ∧ (tc.claudeIndex).isSome = true
        -- two sub-cases of the inner guard
          · rw [if_pos hguard]
            obtain ⟨ci, hci⟩ := Option.isSome_iff_exists.mp hguard.2
            refine Or.inr ⟨ci, tc.argsBuffer ++ a, hci, hguard.1, hok, ⟨a, rfl⟩, ?_⟩
            simp [hci]
          · rw [if_neg hguard]
            exact Or.inl ⟨a, rfl⟩
        · rw [if_neg hok]
          exact Or.inl ⟨a, rfl⟩
      · rw [if_neg hst]
        exact Or.inl ⟨[], by simp⟩

/-- `startIndices` distributes over append. -/
theorem startIndices_append (a b : List Ev) :
    startIndices (a ++ b) = startIndices a ++ startIndices b :=
  List.filterMap_append a b _

/-- `deltaCount` distributes over append. -/
theorem deltaCount_append (a b : List Ev) (i : Nat) :
    deltaCount (a ++ b) i = deltaCount a i + deltaCount b i :=
  List.countP_append _ _ _

/-- A lone start contributes no delta. -/
theorem deltaCount_start (j : Nat) (id name : Str) (i : Nat) :
    deltaCount [Ev.toolUseStart j id name] i = 0 := rfl

/-- A lone delta counts once at its own index. -/
theorem deltaCount_delta (ci : Nat) (s : Str) (i : Nat) :
    deltaCount [Ev.toolUseDelta ci s] i = if ci = i then 1 else 0 := by
  simp only [deltaCount, List.countP_singleton]
  by_cases h : ci = i <;> simp [h]

/-- `C3Inv` only depends on the lookup function extensionally. -/
theorem C3Inv_congr (jsonOk : Str → Bool) (tbi : Nat) (evs : List Ev)
    (m m' : ToolMap) (ctr : Nat) (hm : ∀ k, m.find k = m'.find k)
    (h : C3Inv jsonOk tbi evs m ctr) : C3Inv jsonOk tbi evs m' ctr := by
  obtain ⟨h1, h2, h3, h4, h5, h6, h7, h8⟩ := h
  refine ⟨h1, fun k => ?_, fun k ci => ?_, fun k k' ci => ?_, fun k ci => ?_,
    fun i hk => ?_, fun i s hin => ?_, h8⟩
  · rw [← hm k]; exact h2 k
  · rw [← hm k]; exact h3 k ci
  · rw [← hm k, ← hm k']; exact h4 k k' ci
  · rw [← hm k]; exact h5 k ci
  · exact h6 i (fun k => by rw [hm k]; exact hk k)
  · obtain ⟨hok, k, hk1, hk2, hk3⟩ := h7 i s hin
    exact ⟨hok, k, by rw [← hm k]; exact hk1, by rw [← hm k]; exact hk2,
      by rw [← hm k]; exact hk3⟩

/-- Updating one accumulator without changing its observable fields (only
extending its buffer) preserves the invariant with no new events. -/
theorem C3Inv_extend (jsonOk : Str → Bool) (tbi : Nat) (evs : List Ev) (m : ToolMap)
    (ctr : Nat) (tcIndex : Nat) (keys' : List Nat) (F : ToolAcc)
    (hFs : F.started = (m.find tcIndex).started)
    (hFc : F.claudeIndex = (m.find tcIndex).claudeIndex)
    (hFj : F.jsonSent = (m.find tcIndex).jsonSent)
    (hFb : ∃ t, (m.find tcIndex).argsBuffer ++ t = F.argsBuffer)
    (h : C3Inv jsonOk tbi evs m ctr) :
    C3Inv jsonOk tbi evs
      { keys := keys', find := fun k => if k = tcIndex then F else m.find k } ctr := by
  obtain ⟨h1, h2, h3, h4, h5, h6, h7, h8⟩ := h
  obtain ⟨tb, htb⟩ := hFb
  refine ⟨h1, fun k => ?_, fun k ci => ?_, fun k k' ci => ?_, fun k ci => ?_,
    fun i hk => ?_, fun i s hin => ?_, h8⟩
  · simp only
    by_cases hk : k = tcIndex
    · simp only [if_pos hk, hFs, hFc, hFj]
      exact h2 tcIndex
    · simp only [if_neg hk]
      exact h2 k
  · simp only
    by_cases hk : k = tcIndex
    · simp only [if_pos hk, hFc]
      exact h3 tcIndex ci
    · simp only [if_neg hk]
      exact h3 k ci
  · simp only
    by_cases hk : k = tcIndex <;> by_cases hk' : k' = tcIndex
    · intro _ _; rw [hk, hk']
    · simp only [if_pos hk, if_neg hk', hFc]
      intro a b
      rw [hk]
      exact h4 tcIndex k' ci a b
    · simp only [if_neg hk, if_pos hk', hFc]
      intro a b
      rw [hk']
      exact h4 k tcIndex ci a b
    · simp only [if_neg hk, if_neg hk']
      exact h4 k k' ci
  · simp only
    by_cases hk : k = tcIndex
    · simp only [if_pos hk, hFc, hFj]
      exact h5 tcIndex ci
    · simp only [if_neg hk]
      exact h5 k ci
  · apply h6
    intro k
    have := hk k
    simp only at this
    by_cases hkk : k = tcIndex
    · simp only [if_pos hkk, hFc] at this
      rw [hkk]
      exact this
    · simp only [if_neg hkk] at this
      exact this
  · obtain ⟨hok, k, hk1, hk2, hk3⟩ := h7 i s hin
    refine ⟨hok, k, ?_⟩
    simp only
    by_cases hkk : k = tcIndex
    · simp only [if_pos hkk, hFc, hFj]
      rw [hkk] at hk1 hk2 hk3
      refine ⟨hk1, hk2, ?_⟩
      obtain ⟨t0, ht0⟩ := hk3
      exact ⟨t0 ++ tb, by rw [← htb, ← ht0, List.append_assoc]⟩
    · simp only [if_neg hkk]
      exact ⟨hk1, hk2, hk3⟩

/-- Starting a tool block: the fresh block index `tbi + (ctr + 1)` is
recorded, its `content_block_start` is appended, and the counter
advances. -/
theorem C3Inv_start (jsonOk : Str → Bool) (tbi : Nat) (evs : List Ev) (m : ToolMap)
    (ctr : Nat) (tcIndex : Nat) (keys' : List Nat) (F : ToolAcc) (id name : Str)
    (hold : (m.find tcIndex).started = false)
    (hFs : F.started = true) (hFc : F.claudeIndex = some (tbi + (ctr + 1)))
    (hFj : F.jsonSent = false) (hFid : id ≠ []) (hFname : name ≠ [])
    (h : C3Inv jsonOk tbi evs m ctr) :
    C3Inv jsonOk tbi (evs ++ [Ev.toolUseStart (tbi + (ctr + 1)) id name])
      { keys := keys', find := fun k => if k = tcIndex then F else m.find k }
      (ctr + 1) := by
  obtain ⟨h1, h2, h3, h4, h5, h6, h7, h8⟩ := h
  have hnone := h2 tcIndex hold
  refine ⟨?_, fun k => ?_, fun k ci => ?_, fun k k' ci => ?_, fun k ci => ?_,
    fun i hk => ?_, fun i s hin => ?_, fun i idv namev hin => ?_⟩
  · have hsi : startIndices [Ev.toolUseStart (tbi + (ctr + 1)) id name] =
        [tbi + (ctr + 1)] := rfl
    rw [startIndices_append, h1, hsi, List.range'_1_concat]
    have : tbi + 1 + ctr = tbi + (ctr + 1) := by omega
    rw [this]
  · simp only
    by_cases hk : k = tcIndex
    · simp only [if_pos hk, hFs]
      intro hco
      cases hco
    · simp only [if_neg hk]
      exact h2 k
  · simp only
    by_cases hk : k = tcIndex
    · simp only [if_pos hk, hFc, Option.some.injEq]
      rintro rfl
      omega
    · simp only [if_neg hk]
      intro hci
      have := h3 k ci hci
      omega
  · simp only
    by_cases hk : k = tcIndex <;> by_cases hk' : k' = tcIndex
    · intro _ _
      rw [hk, hk']
    · simp only [if_pos hk, if_neg hk', hFc, Option.some.injEq]
      intro ha hb
      have := h3 k' ci hb
      omega
    · simp only [if_neg hk, if_pos hk', hFc, Option.some.injEq]
      intro ha hb
      have := h3 k ci ha
      omega
    · simp only [if_neg hk, if_neg hk']
      exact h4 k k' ci
  · simp only
    by_cases hk : k = tcIndex
    · simp only [if_pos hk, hFc, hFj, Option.some.injEq]
      rintro rfl
      rw [deltaCount_append, deltaCount_start, Nat.add_zero]
      have hz : deltaCount evs (tbi + (ctr + 1)) = 0 := by
        apply h6
        intro k' hc
        have := h3 k' (tbi + (ctr + 1)) hc
        omega
      rw [hz]
      simp
    · simp only [if_neg hk]
      intro hci
      rw [deltaCount_append, deltaCount_start, Nat.add_zero]
      exact h5 k ci hci
  · rw [deltaCount_append, deltaCount_start, Nat.add_zero]
    apply h6
    intro k
    by_cases hkk : k = tcIndex
    · rw [hkk, hnone.1]
      intro hco
      cases hco
    · have := hk k
      simp only [if_neg hkk] at this
      exact this
  · rcases List.mem_append.mp hin with hmem | hmem
    · obtain ⟨hok, k, hk1, hk2, hk3⟩ := h7 i s hmem
      have hkne : k ≠ tcIndex := by
        intro hkk
        rw [hkk, hnone.2] at hk2
        cases hk2
      refine ⟨hok, k, ?_⟩
      simp only [if_neg hkne]
      exact ⟨hk1, hk2, hk3⟩
    · simp at hmem
  · rcases List.mem_append.mp hin with hmem | hmem
    · exact h8 i idv namev hmem
    · rw [List.mem_singleton] at hmem
      injection hmem with ha hb hc
      rw [hb, hc]
      exact ⟨hFid, hFname⟩

/-- Emitting the single `input_json_delta` for a block: the buffer is sent
whole, the flag flips, and no other block's count changes. -/
theorem C3Inv_delta (jsonOk : Str → Bool) (tbi : Nat) (evs : List Ev) (m : ToolMap)
    (ctr : Nat) (tcIndex : Nat) (keys' : List Nat) (F : ToolAcc) (ci : Nat) (buf : Str)
    (hci : (m.find tcIndex).claudeIndex = some ci)
    (hjs : (m.find tcIndex).jsonSent = false)
    (hok : jsonOk buf = true)
    (hbuf : ∃ t, (m.find tcIndex).argsBuffer ++ t = buf)
    (hFs : F.started = (m.find tcIndex).started)
    (hFc : F.claudeIndex = some ci)
    (hFj : F.jsonSent = true)
    (hFb : F.argsBuffer = buf)
    (h : C3Inv jsonOk tbi evs m ctr) :
    C3Inv jsonOk tbi (evs ++ [Ev.toolUseDelta ci buf])
      { keys := keys', find := fun k => if k = tcIndex then F else m.find k } ctr := by
  obtain ⟨h1, h2, h3, h4, h5, h6, h7, h8⟩ := h
  have hstarted : (m.find tcIndex).started = true := by
    cases hst : (m.find tcIndex).started
    · have := (h2 tcIndex hst).1
      rw [this] at hci
      cases hci
    · rfl
  refine ⟨?_, fun k => ?_, fun k ci' => ?_, fun k k' ci' => ?_, fun k ci' => ?_,
    fun i hk => ?_, fun i s hin => ?_, fun i idv namev hin => ?_⟩
  · have hsi : startIndices [Ev.toolUseDelta ci buf] = [] := rfl
    rw [startIndices_append, h1, hsi, List.append_nil]
  · simp only
    by_cases hk : k = tcIndex
    · simp only [if_pos hk, hFs, hstarted]
      intro hco
      cases hco
    · simp only [if_neg hk]
      exact h2 k
  · simp only
    by_cases hk : k = tcIndex
    · simp only [if_pos hk, hFc, Option.some.injEq]
      rintro rfl
      exact h3 tcIndex ci hci
    · simp only [if_neg hk]
      exact h3 k ci'
  · simp only
    by_cases hk : k = tcIndex <;> by_cases hk' : k' = tcIndex
    · intro _ _
      rw [hk, hk']
    · simp only [if_pos hk, if_neg hk', hFc, Option.some.injEq]
      intro ha hb
      rw [hk]
      apply h4 tcIndex k' ci'
      · rw [hci, ha]
      · exact hb
    · simp only [if_neg hk, if_pos hk', hFc, Option.some.injEq]
      intro ha hb
      rw [hk']
      apply h4 k tcIndex ci'
      · exact ha
      · rw [hci, hb]
    · simp only [if_neg hk, if_neg hk']
      exact h4 k k' ci'
  · simp only
    by_cases hk : k = tcIndex
    · simp only [if_pos hk, hFc, hFj, Option.some.injEq]
      rintro rfl
      rw [deltaCount_append, deltaCount_delta]
      have h0 : deltaCount evs ci = 0 := by
        have := h5 tcIndex ci hci
        rw [hjs] at this
        simpa using this
      rw [h0, if_pos rfl]
      simp
    · simp only [if_neg hk]
      intro hci'
      rw [deltaCount_append, deltaCount_delta]
      have hne : ci ≠ ci' := by
        intro hcc
        apply hk
        exact h4 k tcIndex ci' hci' (by rw [hci, hcc])
      rw [if_neg hne, Nat.add_zero]
      exact h5 k ci' hci'
  · rw [deltaCount_append, deltaCount_delta]
    have hic : ci ≠ i := by
      intro hcc
      have hT := hk tcIndex
      rw [show ({ keys := keys', find := fun k => if k = tcIndex then F else m.find k } :
          ToolMap).find tcIndex = F from by simp, hFc, hcc] at hT
      exact hT rfl
    rw [if_neg hic, Nat.add_zero]
    apply h6
    intro k
    by_cases hkk : k = tcIndex
    · rw [hkk, hci]
      intro hco
      injection hco with hco2
      exact hic hco2
    · have := hk k
      simp only [if_neg hkk] at this
      exact this
  · rcases List.mem_append.mp hin with hmem | hmem
    · obtain ⟨hok2, k, hk1, hk2, hk3⟩ := h7 i s hmem
      have hkne : k ≠ tcIndex := by
        intro hkk
        rw [hkk, hjs] at hk2
        cases hk2
      refine ⟨hok2, k, ?_⟩
      simp only [if_neg hkne]
      exact ⟨hk1, hk2, hk3⟩
    · rw [List.mem_singleton] at hmem
      injection hmem with ha hb
      refine ⟨by rw [hb]; exact hok, tcIndex, ?_⟩
      rw [show ({ keys := keys', find := fun k => if k = tcIndex then F else m.find k } :
          ToolMap).find tcIndex = F from by simp, hFc, hFj, hFb]
      refine ⟨by rw [ha], rfl, [], by rw [hb, List.append_nil]⟩
  · rcases List.mem_append.mp hin with hmem | hmem
    · exact h8 i idv namev hmem
    · simp at hmem

/-- One `processToolCallDelta` call preserves the streaming invariant. -/
theorem processToolCallDelta_inv (jsonOk : Str → Bool) (tbi : Nat) (d : TcDelta)
    (m : ToolMap) (ctr : Nat) (evs : List Ev)
    (h : C3Inv jsonOk tbi evs m ctr) :
    C3Inv jsonOk tbi (evs ++ (SharedConverters.processToolCallDelta jsonOk d m tbi ctr).1)
      (SharedConverters.processToolCallDelta jsonOk d m tbi ctr).2.1
      (SharedConverters.processToolCallDelta jsonOk d m tbi ctr).2.2 := by
  set tcIdx := d.index.getD 0 with htci
  set tc2 := SharedConverters.applyIdName d (m.find tcIdx) with htc2
  obtain ⟨e1, e2, e3, e4⟩ := applyIdName_fields d (m.find tcIdx)
  rw [← htc2] at e1 e2 e3 e4
  by_cases hs : truthyS tc2.id = true ∧ truthyS tc2.name = true ∧ tc2.started = false
  · -- the start fires
    have hold : (m.find tcIdx).started = false := by rw [← e1]; exact hs.2.2
    have hsentF : tc2.jsonSent = false := by
      rw [e3]
      exact (h.2.1 tcIdx hold).2
    have hstart := startPhase_pos tbi ctr tc2 hs
    set tcS : ToolAcc :=
      { tc2 with claudeIndex := some (tbi + (ctr + 1)), started := true } with htcS
    rcases argsPhase_cases jsonOk d tcS with ⟨t, ha⟩ | ⟨ci, buf, hci, hjs, hok, hbuf, ha⟩
    · simp only [SharedConverters.processToolCallDelta]
      rw [← htci, ← htc2, hstart]
      simp only
      rw [ha]
      simp only [List.append_nil]
      have step1 := C3Inv_start jsonOk tbi evs m ctr tcIdx
        (if tcIdx ∈ m.keys then m.keys else m.keys ++ [tcIdx])
        tcS (tc2.id.getD []) (tc2.name.getD []) hold (by rw [htcS]) (by rw [htcS])
        (by rw [htcS]; exact hsentF)
        (truthyS_getD _ hs.1) (truthyS_getD _ hs.2.1) h
      have step2 := C3Inv_extend jsonOk tbi (evs ++ [Ev.toolUseStart (tbi + (ctr + 1))
          (tc2.id.getD []) (tc2.name.getD [])])
        _ (ctr + 1) tcIdx (if tcIdx ∈ m.keys then m.keys else m.keys ++ [tcIdx])
        { tcS with argsBuffer := tcS.argsBuffer ++ t }
        (by simp) (by simp) (by simp) ⟨t, by simp⟩ step1
      apply C3Inv_congr jsonOk tbi _ _ _ _ ?_ step2
      intro k
      by_cases hk : k = tcIdx
      · simp [hk]
      · simp [hk]
    · simp only [SharedConverters.processToolCallDelta]
      rw [← htci, ← htc2, hstart]
      simp only
      rw [ha]
      have step1 := C3Inv_start jsonOk tbi evs m ctr tcIdx
        (if tcIdx ∈ m.keys then m.keys else m.keys ++ [tcIdx])
        tcS (tc2.id.getD []) (tc2.name.getD []) hold (by rw [htcS]) (by rw [htcS])
        (by rw [htcS]; exact hsentF)
        (truthyS_getD _ hs.1) (truthyS_getD _ hs.2.1) h
      have step2 := C3Inv_delta jsonOk tbi (evs ++ [Ev.toolUseStart (tbi + (ctr + 1))
          (tc2.id.getD []) (tc2.name.getD [])])
        _ (ctr + 1) tcIdx (if tcIdx ∈ m.keys then m.keys else m.keys ++ [tcIdx])
        { tcS with argsBuffer := buf, jsonSent := true } ci buf
        (by simpa using hci) (by simpa using hjs) hok (by simpa using hbuf)
        (by simp) (by simpa using hci) (by simp) (by simp) step1
      rw [List.append_assoc] at step2
      apply C3Inv_congr jsonOk tbi _ _ _ _ ?_ step2
      intro k
      by_cases hk : k = tcIdx
      · simp [hk]
      · simp [hk]
  · -- no start
    have hstart := startPhase_neg tbi ctr tc2 hs
    rcases argsPhase_cases jsonOk d tc2 with ⟨t, ha⟩ | ⟨ci, buf, hci, hjs, hok, hbuf, ha⟩
    · simp only [SharedConverters.processToolCallDelta]
      rw [← htci, ← htc2, hstart]
      simp only
      rw [ha]
      simp only [List.nil_append, List.append_nil]
      exact C3Inv_extend jsonOk tbi evs m ctr tcIdx
        (if tcIdx ∈ m.keys then m.keys else m.keys ++ [tcIdx])
        { tc2 with argsBuffer := tc2.argsBuffer ++ t }
        (by simp [e1]) (by simp [e2]) (by simp [e3]) ⟨t, by simp [e4]⟩ h
    · simp only [SharedConverters.processToolCallDelta]
      rw [← htci, ← htc2, hstart]
      simp only
      rw [ha]
      simp only [List.nil_append]
      exact C3Inv_delta jsonOk tbi evs m ctr tcIdx
        (if tcIdx ∈ m.keys then m.keys else m.keys ++ [tcIdx])
        { tc2 with argsBuffer := buf, jsonSent := true } ci buf
        (by rw [← e2]; exact hci) (by rw [← e3]; exact hjs) hok
        (by obtain ⟨t0, ht0⟩ := hbuf; exact ⟨t0, by rw [← e4]; exact ht0⟩)
        (by simp [e1]) (by simpa using hci) (by simp) (by simp) h

/-- The invariant is preserved along any fragment list. -/
theorem processToolCallDeltas_inv (jsonOk : Str → Bool) (tbi : Nat) (ds : List TcDelta) :
    ∀ (m : ToolMap) (ctr : Nat) (evs : List Ev), C3Inv jsonOk tbi evs m ctr →
      C3Inv jsonOk tbi (evs ++ (SharedConverters.processToolCallDeltas jsonOk tbi ds m ctr).1)
        (SharedConverters.processToolCallDeltas jsonOk tbi ds m ctr).2.1
        (SharedConverters.processToolCallDeltas jsonOk tbi ds m ctr).2.2 := by
  induction ds with
  | nil =>
    intro m ctr evs h
    simpa [SharedConverters.processToolCallDeltas] using h
  | cons d rest ih =>
    intro m ctr evs h
    simp only [SharedConverters.processToolCallDeltas]
    have h1 := processToolCallDelta_inv jsonOk tbi d m ctr evs h
    have h2 := ih _ _ _ h1
    simpa [List.append_assoc] using h2

/-- The invariant holds at the initial empty state. -/
theorem C3Inv_init (jsonOk : Str → Bool) (tbi : Nat) :
    C3Inv jsonOk tbi [] {} 0 := by
  refine ⟨rfl, fun k => ?_, fun k ci hci => ?_, fun k k' ci hci _ => ?_,
    fun k ci hci => ?_, fun i _ => rfl, fun i s hin => ?_, fun i idv namev hin => ?_⟩
  · exact fun _ => ⟨rfl, rfl⟩
  · cases hci
  · cases hci
  · cases hci
  · cases hin
  · cases hin

/-- C3: across any destination stream, tool `content_block_start` events are
emitted exactly once per block with the consecutive indices
`textBlockIndex + 1 .. textBlockIndex + counter` (in order, hence never
twice for a block), each carrying a non-empty id and name; at most one
`input_json_delta` is ever emitted per block index, it parses successfully,
and it carries the entire accumulated buffer (a prefix of the block's final
buffer). -/
theorem streaming_toolcall_block_protocol (jsonOk : Str → Bool) (tbi : Nat)
    (ds : List TcDelta) :
    (startIndices (SharedConverters.processToolCallDeltas jsonOk tbi ds {} 0).1 =
      List.range' (tbi + 1)
        (SharedConverters.processToolCallDeltas jsonOk tbi ds {} 0).2.2) ∧
    (∀ i, deltaCount (SharedConverters.processToolCallDeltas jsonOk tbi ds {} 0).1 i ≤ 1) ∧
    (∀ i s, Ev.toolUseDelta i s ∈ (SharedConverters.processToolCallDeltas jsonOk tbi ds {} 0).1 →
      jsonOk s = true ∧
      ∃ k, (((SharedConverters.processToolCallDeltas jsonOk tbi ds {} 0).2.1.find k).claudeIndex
              = some i) ∧
        ((SharedConverters.processToolCallDeltas jsonOk tbi ds {} 0).2.1.find k).jsonSent = true ∧
        ∃ t, s ++ t =
          ((SharedConverters.processToolCallDeltas jsonOk tbi ds {} 0).2.1.find k).argsBuffer) ∧
    (∀ i id name,
      Ev.toolUseStart i id name ∈ (SharedConverters.processToolCallDeltas jsonOk tbi ds {} 0).1 →
      id ≠ [] ∧ name ≠ []) := by
  have h := processToolCallDeltas_inv jsonOk tbi ds {} 0 [] (C3Inv_init jsonOk tbi)
  rw [List.nil_append] at h
  obtain ⟨h1, h2, h3, h4, h5, h6, h7, h8⟩ := h
  refine ⟨h1, fun i => ?_, h7, h8⟩
  rcases Classical.em (∃ k,
      (((SharedConverters.processToolCallDeltas jsonOk tbi ds {} 0).2.1.find k).claudeIndex
        = some i)) with ⟨k, hk⟩ | hno
  · rw [h5 k i hk]
    split <;> omega
  · rw [h6 i (fun k hc => hno ⟨k, hc⟩)]
    omega

/-- C3 witness: the specification's streaming test (id `t1` and name `f`
first, then the argument JSON in two fragments) yields exactly one start at
index 1 and one delta carrying the full buffer. -/
theorem streaming_toolcall_block_protocol_witness :
    jsonOkC (strL "\x7b\x22a\x22:1\x7d") = true ∧
    ∃ k, (((SharedConverters.processToolCallDeltas jsonOkC 0 witnessDeltas {} 0).2.1.find
            k).claudeIndex = some 1) ∧
      ((SharedConverters.processToolCallDeltas jsonOkC 0 witnessDeltas {} 0).2.1.find
          k).jsonSent = true ∧
      ∃ t, strL "\x7b\x22a\x22:1\x7d" ++ t =
        ((SharedConverters.processToolCallDeltas jsonOkC 0 witnessDeltas {} 0).2.1.find
            k).argsBuffer :=
  (streaming_toolcall_block_protocol jsonOkC 0 witnessDeltas).2.2.1 1
    (strL "\x7b\x22a\x22:1\x7d") (by decide)

/-- C6 witness: a response with one choice, null content and no tool calls
converts to a single empty text block. -/
theorem response_at_least_one_block_witness :
    ∃ cr, SharedConverters.convertOpenAIToClaudeResponse (fun _ => none) (strL "tool_x")
        emptyResp minimalReq = some cr ∧
      cr.content ≠ [] ∧
      ((emptyChoice.message.content = none ∧ emptyChoice.message.tool_calls.getD [] = []) →
        cr.content = [ClaudeBlock.text []]) :=
  response_at_least_one_block (fun _ => none) (strL "tool_x") emptyResp minimalReq
    emptyChoice rfl

/-! ## C9: the two streaming transport branches diverge -/

/-- C9 (code bug evaluation): on equivalent inputs — the same two chunks,
once as decoded objects and once as SSE-framed byte reads — the two
transport branches produce different event sequences: the object branch
stops consuming at the finish reason, while the byte branch (whose `break`
only leaves the per-read line loop) processes the following read and emits
its text delta. -/
theorem streaming_branches_diverge :
    ResponseConverter.convertStreamIterable (fun _ => false) [finishChunk, textChunk] ≠
      ResponseConverter.convertStreamReadable (fun _ => false) c9decode [c9read1, c9read2] ∧
    ResponseConverter.convertStreamIterable (fun _ => false) [finishChunk, textChunk] =
      [Ev.messageStart, Ev.contentBlockStart, Ev.contentBlockStop,
       Ev.messageDelta (strL "end_turn") 0, Ev.messageStop] ∧
    ResponseConverter.convertStreamReadable (fun _ => false) c9decode [c9read1, c9read2] =
      [Ev.messageStart, Ev.contentBlockStart, Ev.contentBlockDelta (strL "X"),
       Ev.contentBlockStop, Ev.messageDelta (strL "end_turn") 1, Ev.messageStop] := by
  refine ⟨by decide, by decide, by decide⟩

/-! ## C1: the size-budget pass -/

/-- Escaping is the identity on replicated ordinary characters. -/
theorem escStr_replicate (n : Nat) (c : Char) (h : escChar c = [c]) :
    escStr (List.replicate n c) = List.replicate n c := by
  induction n with
  | zero => rfl
  | succ n ih => simp [List.replicate_succ, escStr, h, ih]

/-- Serialized length of a `{role, content}` message with string content and
escape-free strings. -/
theorem oaMessageToJson_str_length (role content : Str)
    (hr : escStr role = role) (hc : escStr content = content) :
    (BudgetRequestConverter.oaMessageToJson
        { role := role, content := .str content }).render.length =
      24 + role.length + content.length := by
  have h1 : escStr (strL "role") = strL "role" := by decide
  have h2 : escStr (strL "content") = strL "content" := by decide
  unfold BudgetRequestConverter.oaMessageToJson Json.mkObj
  simp only [List.cons_append, List.nil_append, List.append_nil]
  simp only [JsonFields.ofList, Json.render, JsonFields.render, h1, h2, hr, hc]
  simp only [List.length_append, List.length_cons]
  simp only [strL]
  simp only [List.length_cons, List.length_nil]
  omega

/-- Escaping is the identity on the long user turn. -/
theorem escStr_bigA : escStr bigA = bigA := by
  unfold bigA
  exact escStr_replicate 160000 'a' (by decide)

/-- Escaping is the identity on the long assistant turn. -/
theorem escStr_bigB : escStr bigB = bigB := by
  unfold bigB
  exact escStr_replicate 160000 'b' (by decide)

/-- The long user turn is under the per-message content cap, so
`truncateContent` leaves it unchanged. -/
theorem truncate_bigA : SharedConverters.truncateContent bigA = bigA := by
  unfold SharedConverters.truncateContent
  rw [if_pos]
  unfold bigA SharedConverters.MAX_CONTENT_LENGTH
  rw [List.length_replicate]
  omega

/-- Likewise for the assistant turn. -/
theorem truncate_bigB : SharedConverters.truncateContent bigB = bigB := by
  unfold SharedConverters.truncateContent
  rw [if_pos]
  unfold bigB SharedConverters.MAX_CONTENT_LENGTH
  rw [List.length_replicate]
  omega

/-- The two converted messages of the budget scenario. -/
theorem convertMessages_budget :
    BudgetRequestConverter.convertMessages budgetFailingRequest.messages =
      [{ role := strL "user", content := .str bigA },
       { role := strL "assistant", content := .str bigB }] := by
  have hu : ¬(strL "user" = strL "assistant") := by decide
  show BudgetRequestConverter.convertMessages
      [{ role := strL "user", content := .str bigA },
       { role := strL "assistant", content := .str bigB }] = _
  simp only [BudgetRequestConverter.convertMessages, if_neg hu, if_pos rfl,
    truncate_bigA, truncate_bigB, eq_self_iff_true, if_true]

/-- Serialized size of the converted user turn. -/
theorem sizeA :
    (BudgetRequestConverter.oaMessageToJson
        { role := strL "user", content := .str bigA }).render.length = 160028 := by
  rw [oaMessageToJson_str_length (strL "user") bigA (by decide) escStr_bigA]
  rw [show (strL "user").length = 4 from by decide,
      show bigA.length = 160000 from by unfold bigA; rw [List.length_replicate]]

/-- Serialized size of the converted assistant turn. -/
theorem sizeB :
    (BudgetRequestConverter.oaMessageToJson
        { role := strL "assistant", content := .str bigB }).render.length = 160033 := by
  rw [oaMessageToJson_str_length (strL "assistant") bigB (by decide) escStr_bigB]
  rw [show (strL "assistant").length = 9 from by decide,
      show bigB.length = 160000 from by unfold bigB; rw [List.length_replicate]]

/-- Serialized size of the request skeleton of the budget scenario. -/
theorem skeleton_size :
    (BudgetRequestConverter.requestSkeletonJson
        (ToolRequestConverter.baseRequest budgetConfig budgetFailingRequest)).render.length =
      59 := by
  decide

/-- The budget loop keeps the oldest message and stops before the most
recent one. -/
theorem budget_loop_eval :
    BudgetRequestConverter.addMessagesLoop 59
      [{ role := strL "user", content := .str bigA },
       { role := strL "assistant", content := .str bigB }] =
      [{ role := strL "user", content := .str bigA }] := by
  rw [BudgetRequestConverter.addMessagesLoop.eq_2]
  simp only [sizeA]
  rw [if_neg (by decide)]
  rw [BudgetRequestConverter.addMessagesLoop.eq_2]
  simp only [sizeB]
  rw [if_pos (by decide)]

/-- The request skeleton serialized for the base size never reads the
`messages` field (it always serializes `messages` as `[]`). -/
theorem requestSkeletonJson_messages (r : OpenAIRequest) (x : List OAMessage) :
    BudgetRequestConverter.requestSkeletonJson { r with messages := x } =
      BudgetRequestConverter.requestSkeletonJson r := rfl

/-- Unfolding of the budget converter: the output `messages` field is the
budget loop run from the skeleton size of the system-bearing request over the
converted conversation messages. -/
theorem budget_convert_messages_eq (config : ModelConfig)
    (request : ClaudeMessagesRequest) :
    (BudgetRequestConverter.convertClaudeToOpenAI config request).messages =
      BudgetRequestConverter.addMessagesLoop
        ((BudgetRequestConverter.requestSkeletonJson
          { ToolRequestConverter.baseRequest config request with
            messages := BudgetRequestConverter.systemMessages request }).render.length)
        (BudgetRequestConverter.convertMessages request.messages) := rfl

/-- Total serialized size of the two converted budget-scenario messages. -/
theorem mapsum_budget :
    (([{ role := strL "user", content := .str bigA },
       { role := strL "assistant", content := .str bigB }] : List OAMessage).map fun mm =>
      (BudgetRequestConverter.oaMessageToJson mm).render.length).sum =
      160028 + (160033 + 0) := by
  rw [List.map_cons, List.map_cons, List.map_nil]
  show ((BudgetRequestConverter.oaMessageToJson
        { role := strL "user", content := .str bigA }).render.length ::
      (BudgetRequestConverter.oaMessageToJson
        { role := strL "assistant", content := .str bigB }).render.length :: []).sum = _
  rw [List.sum_cons, List.sum_cons, List.sum_nil, sizeA, sizeB]

/-- C1 (code bug, evaluated): on a request whose two converted messages
together overflow `MAX_TOTAL_REQUEST_SIZE` (premise, first conjunct), while
the pushed system message fits under the budget by itself (second and third
conjuncts), the budget pass outputs only the OLDEST converted message — the
most recent turn is dropped (fourth conjunct, a prefix, not a suffix) — and
the final `messages := finalMessages` assignment has discarded the system
message entirely (fifth conjunct). -/
theorem budget_pass_drops_system_and_recent :
    ((BudgetRequestConverter.requestSkeletonJson
        (ToolRequestConverter.baseRequest budgetConfig budgetFailingRequest)).render.length +
      ((BudgetRequestConverter.convertMessages budgetFailingRequest.messages).map fun mm =>
        (BudgetRequestConverter.oaMessageToJson mm).render.length).sum >
      BudgetRequestConverter.MAX_TOTAL_REQUEST_SIZE) ∧
    (BudgetRequestConverter.systemMessages budgetFailingRequest =
      [{ role := strL "system", content := .str (strL "You are helpful.") }]) ∧
    ((BudgetRequestConverter.requestSkeletonJson
        (ToolRequestConverter.baseRequest budgetConfig budgetFailingRequest)).render.length +
      (BudgetRequestConverter.oaMessageToJson
        { role := strL "system", content := .str (strL "You are helpful.") }).render.length ≤
      BudgetRequestConverter.MAX_TOTAL_REQUEST_SIZE) ∧
    ((BudgetRequestConverter.convertClaudeToOpenAI budgetConfig budgetFailingRequest).messages =
      [{ role := strL "user", content := .str bigA }]) ∧
    ((BudgetRequestConverter.convertClaudeToOpenAI budgetConfig
        budgetFailingRequest).messages.all fun mm => !(mm.role == strL "system")) = true := by
  have hmain : (BudgetRequestConverter.convertClaudeToOpenAI budgetConfig
      budgetFailingRequest).messages = [{ role := strL "user", content := .str bigA }] := by
    rw [budget_convert_messages_eq, requestSkeletonJson_messages, skeleton_size,
        convertMessages_budget, budget_loop_eval]
  refine ⟨?_, by decide, by decide, hmain, ?_⟩
  · rw [skeleton_size, convertMessages_budget, mapsum_budget]
    decide
  · rw [hmain]
    decide
